import Mathlib

/-!
# udhos/trawl: a shallow embedding of `trawl.go`

The Go program lists the network interfaces of a host.  Embedded here are
`extractAddrs` (pick one address per family), `toDottedDec` (CIDR length to
dotted mask), `New` (build the record of an interface) and `Interface.String`
(render the record as a line of columns).

Conventions of the embedding.

* A Go `string` is a Lean `String`; Go indexes bytes, and every byte the
  program tests for (`'.'`, `':'`, `'/'`, digits, signs) is ASCII, so on
  UTF-8 text the tests agree with tests on characters.  A byte length is
  `String.utf8ByteSize`.
* Go `int` is the 64-bit `int` of the usual platforms, embedded in `Int`.
* A Go function that returns `(value, error)` returns a pair whose second
  component is `none` for `nil`; a run that stops in a runtime panic
  (index out of range) is the constructor `Go.panicIndex`.
* The functions of the Go standard library that the program calls
  (`strings.Contains`, `strings.Split`, `strings.Join`, `strconv.Atoi`,
  `net.ParseCIDR`, `(*net.IPNet).String`, `net.HardwareAddr.String`,
  `fmt.Sprintf`) are
  embedded in namespaces named after their packages, as recent Go releases
  define them (`ParseCIDR` reads the address with `netip.ParseAddr`).  What
  Go does with IPv6 literals is left open, see `net.IPv6Text`.
-/

namespace Trawl

/-! ## Results of Go code -/

/-- The two sentinel errors of package `strconv`. -/
inductive NumErr where
  | ErrSyntax
  | ErrRange
  deriving DecidableEq, Repr

/-- The error values the program can hand to its caller. -/
inductive GoError where
  /-- Go `*strconv.NumError` with its fields `Func`, `Num` and `Err` -/
  | NumError (fn num : String) (err : NumErr)
  /-- Go `fmt.Errorf`, by the message it formats -/
  | Errorf (msg : String)
  /-- Go `*net.ParseError` with its fields `Type` and `Text` -/
  | ParseError (typ text : String)
  /-- an error of the operating system, as `iface.Addrs()` may return -/
  | Syscall (msg : String)
  deriving DecidableEq, Repr

/-- The outcome of running a Go function: it returns, or it panics on an
index that is out of range. -/
inductive Go (α : Type) where
  | ret (a : α)
  | panicIndex (index length : Nat)
  deriving DecidableEq, Repr

/-- Write `s[i] = v` on a slice: `none` stands for the index-out-of-range
panic. -/
def setIndex {α : Type} : List α → Nat → α → Option (List α)
  | [], _, _ => none
  | _ :: t, 0, v => some (v :: t)
  | h :: t, i + 1, v => (setIndex t i v).map (h :: ·)

/-! ## Package `strings` -/

namespace strings

/-- Whether `substr` occurs in `s` at some position. -/
def containsChars : List Char → List Char → Bool
  | [], substr => substr.isEmpty
  | c :: t, substr => substr.isPrefixOf (c :: t) || containsChars t substr

/-- Go `strings.Contains(s, substr)`. -/
def Contains (s substr : String) : Bool := containsChars s.data substr.data

/-- The loop of `strings.Split` for a non-empty separator: `skip` counts the
characters of a separator just matched that are still to be passed over,
`cur` holds the current piece, last character first. -/
def splitChars (sep : List Char) : List Char → Nat → List Char → List String
  | [], _, cur => [String.mk cur.reverse]
  | _ :: t, skip + 1, cur => splitChars sep t skip cur
  | c :: t, 0, cur =>
    if sep.isPrefixOf (c :: t) then
      String.mk cur.reverse :: splitChars sep t (sep.length - 1) []
    else
      splitChars sep t 0 (c :: cur)

/-- Go `strings.Split(s, sep)`: the pieces of `s` between the occurrences of
`sep`; with an empty `sep` it cuts after every character. -/
def Split (s sep : String) : List String :=
  if sep.data.isEmpty then s.data.map String.singleton
  else splitChars sep.data s.data 0 []

/-- Go `strings.Join(elems, sep)`. -/
def Join : List String → String → String
  | [], _ => ""
  | [a], _ => a
  | a :: b :: t, sep => a ++ sep ++ Join (b :: t) sep

end strings

/-! ## Package `strconv` -/

namespace strconv

/-- The test `'0' <= c && c <= '9'`. -/
def isDigit (c : Char) : Bool := decide (48 ≤ c.toNat) && decide (c.toNat ≤ 57)

/-- The value `c - '0'` of a digit. -/
def digitVal (c : Char) : Nat := c.toNat - 48

/-- The digit loop of the fast path of `Atoi`: `n = n*10 + int(ch - '0')`,
`none` at the first byte that is no digit. -/
def atoiLoop : List Char → Int → Option Int
  | [], n => some n
  | c :: t, n => if isDigit c then atoiLoop t (n * 10 + (digitVal c : Nat)) else none

/-- The largest `uint64`. -/
def maxUint64 : Nat := 2 ^ 64 - 1

/-- The digit loop of `ParseUint(s, 10, 64)`.  A byte that is no decimal digit
is a syntax error; `n >= cutoff` (then `n*10` overflows) and a wrapped or too
large `n*10 + d` are range errors. -/
def parseUintLoop : List Char → Nat → Except NumErr Nat
  | [], n => .ok n
  | c :: t, n =>
    if !isDigit c then .error .ErrSyntax
    else if n ≥ maxUint64 / 10 + 1 then .error .ErrRange
    else
      let n10 := n * 10 % 2 ^ 64
      let n1 := (n10 + digitVal c) % 2 ^ 64
      if n1 < n10 ∨ n1 > maxUint64 then .error .ErrRange
      else parseUintLoop t n1

/-- Go `strconv.ParseUint(s, 10, 64)`, by the kind of its error; on a range
error Go also returns the value `maxUint64`, which `ParseInt` turns into a
range error of its own. -/
def ParseUint (s : List Char) : Except NumErr Nat :=
  if s.isEmpty then .error .ErrSyntax else parseUintLoop s 0

/-- Go `strconv.ParseInt(s, 10, 0)` with a 64-bit `int`, by the kind of its
error. -/
def ParseInt (s : List Char) : Except NumErr Int :=
  match s with
  | [] => .error .ErrSyntax
  | c :: t =>
    let neg := c == '-'
    let body := if c == '+' || c == '-' then t else c :: t
    match ParseUint body with
    | .error .ErrSyntax => .error .ErrSyntax
    | .error .ErrRange => .error .ErrRange
    | .ok un =>
      if !neg && un ≥ 2 ^ 63 then .error .ErrRange
      else if neg && un > 2 ^ 63 then .error .ErrRange
      else .ok (if neg then -(un : Int) else (un : Int))

/-- Go `strconv.Atoi(s)` on a 64-bit platform.  Strings of 1 to 18 bytes take
the fast path, which cannot overflow; the others go through `ParseInt`.  The
integer Go returns next to an error is dropped: no caller here reads it. -/
def Atoi (s : String) : Except GoError Int :=
  if 0 < s.utf8ByteSize ∧ s.utf8ByteSize < 19 then
    match s.data with
    | [] => .error (.NumError "Atoi" s .ErrSyntax)
    | c :: t =>
      let body := if c == '-' || c == '+' then t else c :: t
      if body.isEmpty then .error (.NumError "Atoi" s .ErrSyntax)
      else
        match atoiLoop body 0 with
        | none => .error (.NumError "Atoi" s .ErrSyntax)
        | some n => .ok (if c == '-' then -n else n)
  else
    match ParseInt s.data with
    | .error e => .error (.NumError "Atoi" s e)
    | .ok n => .ok n

end strconv

/-! ## `extractAddrs` and `toDottedDec` -/

/-- The loop of `extractAddrs`: `acc` is `(ipv4, ipv6)` so far. -/
def extractAddrsLoop : List String → String × String → String × String
  | [], acc => acc
  | a :: rest, (ipv4, ipv6) =>
    let ipv6 := if strings.Contains a ":" then a else ipv6
    let ipv4 := if strings.Contains a "." then a else ipv4
    extractAddrsLoop rest (ipv4, ipv6)

/-- Go `extractAddrs(addrs)`, on the texts `addr.String()` of the addresses;
the result is `(ipv4, ipv6)`. -/
def extractAddrs (addrs : List String) : String × String :=
  extractAddrsLoop addrs ("", "")

/-- The table `maskBits` of `toDottedDec`. -/
def maskBits : List String :=
  ["", "128", "192", "224", "240", "248", "252", "254", "255"]

/-- The loop `for i := 0; i < allOnes; i++ { mask[i] = "255" }`, by the
number of iterations that remain. -/
def onesLoop : Nat → Nat → List String → Go (List String)
  | 0, _, mask => .ret mask
  | remaining + 1, i, mask =>
    match setIndex mask i "255" with
    | none => .panicIndex i mask.length
    | some mask1 => onesLoop remaining (i + 1) mask1

/-- Go `toDottedDec(cidr)`: the pair `(s, err)` it returns. -/
def toDottedDec (cidr : String) : Go (String × Option GoError) :=
  match strconv.Atoi cidr with
  | .error err => .ret ("", some err)
  | .ok n =>
    if n > 32 ∨ n < 0 then
      .ret ("", some (.Errorf ("Not a valid network mask: " ++ cidr)))
    else
      let allOnes := (Int.tdiv n 8).toNat
      let someOnes := (Int.tmod n 8).toNat
      let mask : List String := List.replicate 4 ""
      match onesLoop allOnes 0 mask with
      | .panicIndex i len => .panicIndex i len
      | .ret mask1 =>
        match maskBits[someOnes]? with
        | none => .panicIndex someOnes maskBits.length
        | some bits =>
          if bits ≠ "" then
            match setIndex mask1 allOnes bits with
            | none => .panicIndex allOnes mask1.length
            | some mask2 =>
              .ret (strings.Join (mask2.map fun octet => if octet = "" then "0" else octet) ".", none)
          else
            .ret (strings.Join (mask1.map fun octet => if octet = "" then "0" else octet) ".", none)

/-! ## Package `net` -/

namespace net

/-- The string `"0123456789abcdef"` indexed at `i`. -/
def hexDigit (i : Nat) : Char :=
  if i < 10 then Char.ofNat (48 + i) else Char.ofNat (87 + i)

/-- The loop of `HardwareAddr.String`: a `':'` before every byte but the
first, then the two hexadecimal digits `b>>4` and `b&0xF`. -/
def hardwareAddrChars : List UInt8 → Bool → List Char
  | [], _ => []
  | b :: t, first =>
    (if first then [] else [':']) ++
      hexDigit (b.toNat / 16) :: hexDigit (b.toNat % 16) :: hardwareAddrChars t false

/-- Go `net.HardwareAddr.String()`; an empty address gives `""`. -/
def HardwareAddr.String (a : List UInt8) : String :=
  String.mk (hardwareAddrChars a true)

/-- What `New` reads of a `net.Interface`: its fields `Name`, `HardwareAddr`
and `MTU`, and the outcome of the call `iface.Addrs()`, each address by its
text `addr.String()`. -/
structure Interface where
  Name : String
  HardwareAddr : List UInt8
  MTU : Int
  Addrs : Except GoError (List String)

/-- The part of Go's address library that reads and writes IPv6 literals.  The
program never asks for it on a dotted quad, and this development does not fix
what it does: every statement below holds for each value of this structure. -/
structure IPv6Text where
  /-- Go `netip.parseIPv6`: the bytes and the zone of the literal, `none` when
  the text is rejected -/
  parse : String → Option (List Nat × String)
  /-- the text of a 16-byte address that is not IPv4-mapped -/
  format : List Nat → String

/-- An address as `netip.ParseAddr` returns it. -/
inductive Addr where
  | v4 (bytes : List Nat)
  | v6 (bytes : List Nat) (zone : String)
  deriving DecidableEq, Repr

/-- The loop of `netip.parseIPv4Fields`.  `prev` is the byte `s[i-1]` (`none`
at `i = 0`), `val` and `digLen` the value and digit count of the octet being
read, `fields` the octets already stored (`pos` is its length). -/
def parseIPv4Loop : List Char → Option Char → Nat → Nat → List Nat → Option (List Nat)
  | [], _, val, _, fields => if fields.length < 3 then none else some (fields ++ [val])
  | c :: t, prev, val, digLen, fields =>
    if strconv.isDigit c then
      if digLen = 1 ∧ val = 0 then none
      else
        let val1 := val * 10 + strconv.digitVal c
        if val1 > 255 then none
        else parseIPv4Loop t (some c) val1 (digLen + 1) fields
    else if c = '.' then
      if prev = none ∨ t.isEmpty ∨ prev = some '.' then none
      else if fields.length = 3 then none
      else parseIPv4Loop t (some c) 0 0 (fields ++ [val])
    else none

/-- Go `netip.parseIPv4`: the four octets of a dotted quad. -/
def parseIPv4 (s : List Char) : Option (List Nat) := parseIPv4Loop s none 0 0 []

/-- The scan of `netip.ParseAddr`: the first of `'.'`, `':'`, `'%'` in `rest`
decides how the whole text `s` is read. -/
def parseAddrScan (v6 : IPv6Text) (s : List Char) : List Char → Option Addr
  | [] => none
  | c :: rest =>
    if c = '.' then (parseIPv4 s).map Addr.v4
    else if c = ':' then (v6.parse (String.mk s)).map fun r => Addr.v6 r.1 r.2
    else if c = '%' then none
    else parseAddrScan v6 s rest

/-- Go `netip.ParseAddr(s)`, `none` for an error. -/
def ParseAddr (v6 : IPv6Text) (s : List Char) : Option Addr := parseAddrScan v6 s s

/-- The loop of `dtoi`: `(n, i, ok)` after reading the leading digits. -/
def dtoiLoop : List Char → Nat → Nat → Nat × Nat × Bool
  | [], n, i => if i = 0 then (0, 0, false) else (n, i, true)
  | c :: t, n, i =>
    if strconv.isDigit c then
      let n1 := n * 10 + strconv.digitVal c
      if n1 ≥ 0xFFFFFF then (0xFFFFFF, i, false) else dtoiLoop t n1 (i + 1)
    else if i = 0 then (0, 0, false) else (n, i, true)

/-- Go `dtoi(s)`: the leading decimal number of `s`, how many bytes it takes,
and whether there is one below `0xFFFFFF`. -/
def dtoi (s : List Char) : Nat × Nat × Bool := dtoiLoop s 0 0

/-- The loop of `CIDRMask` over the `l` bytes still to fill, `n` one-bits
left: `0xff` while `n >= 8`, then `^byte(0xff >> n)`, then zeros. -/
def cidrMaskLoop : Nat → Nat → List Nat
  | 0, _ => []
  | l + 1, n =>
    if n ≥ 8 then 255 :: cidrMaskLoop l (n - 8)
    else (255 - 255 / 2 ^ n) :: cidrMaskLoop l 0

/-- Go `net.CIDRMask(ones, bits)`; the empty list is Go's `nil` mask. -/
def CIDRMask (ones bits : Nat) : List Nat :=
  if bits ≠ 32 ∧ bits ≠ 128 then []
  else if ones > bits then []
  else cidrMaskLoop (bits / 8) ones

/-- The 12 bytes that precede an IPv4 address in its 16-byte form. -/
def v4InV6Prefix : List Nat := [0, 0, 0, 0, 0, 0, 0, 0, 0, 0, 0xff, 0xff]

/-- Go `IP.Mask(mask)`: the bytes of `ip` and-ed with those of `mask`, after
bringing a 4-byte and a 16-byte operand to the same length; `[]` is `nil`. -/
def IP.Mask (ip mask : List Nat) : List Nat :=
  let mask1 :=
    if mask.length = 16 ∧ ip.length = 4 ∧ (mask.take 12).all (· == 0xff) then mask.drop 12
    else mask
  let ip1 :=
    if mask1.length = 4 ∧ ip.length = 16 ∧ ip.take 12 = v4InV6Prefix then ip.drop 12
    else ip
  if ip1.length ≠ mask1.length then []
  else List.zipWith (fun x m => x &&& m) ip1 mask1

/-- A network as `net.ParseCIDR` returns it. -/
structure IPNet where
  IP : List Nat
  Mask : List Nat
  deriving DecidableEq, Repr

/-- Go `IP.To4()`; `[]` is `nil`. -/
def IP.To4 (ip : List Nat) : List Nat :=
  if ip.length = 4 then ip
  else if ip.length = 16 ∧ (ip.take 10).all (· == 0) ∧ ip[10]? = some 0xff ∧ ip[11]? = some 0xff then
    ip.drop 12
  else []

/-- Go `networkNumberAndMask(n)`; `none` is the pair `nil, nil`. -/
def networkNumberAndMask (n : IPNet) : Option (List Nat × List Nat) :=
  let ip4 := IP.To4 n.IP
  if ip4.isEmpty ∧ n.IP.length ≠ 16 then none
  else
    let ip := if ip4.isEmpty then n.IP else ip4
    if n.Mask.length = 4 then
      if ip.length ≠ 4 then none else some (ip, n.Mask)
    else if n.Mask.length = 16 then
      some (ip, if ip.length = 4 then n.Mask.drop 12 else n.Mask)
    else none

/-- The inner loop of `simpleMaskLength`: the leading one-bits of a byte `v`
and what is left of it, shifted, after at most `fuel` shifts (8 suffice). -/
def leadingOnes : Nat → Nat → Nat × Nat
  | 0, v => (0, v)
  | fuel + 1, v =>
    if v &&& 0x80 ≠ 0 then
      let r := leadingOnes fuel (v * 2 % 256)
      (r.1 + 1, r.2)
    else (0, v)

/-- Go `simpleMaskLength(mask)`: the number of leading one-bits when all the
bits after them are zero, `none` for Go's `-1`. -/
def simpleMaskLength : List Nat → Option Nat
  | [] => some 0
  | v :: t =>
    if v = 0xff then (simpleMaskLength t).map (· + 8)
    else
      let r := leadingOnes 8 v
      if r.2 ≠ 0 then none
      else if t.all (· == 0) then some r.1 else none

/-- Go `appendDecimal` of `netip`: an octet without leading zeros. -/
def appendDecimal (x : Nat) : List Char :=
  (if x ≥ 100 then [Char.ofNat (48 + x / 100)] else []) ++
  (if x ≥ 10 then [Char.ofNat (48 + x / 10 % 10)] else []) ++
  [Char.ofNat (48 + x % 10)]

/-- The loop of `hexString`: two hexadecimal digits a byte. -/
def hexChars : List Nat → List Char
  | [] => []
  | b :: t => hexDigit (b / 16 % 16) :: hexDigit (b % 16) :: hexChars t

/-- Go `IPMask.String()`. -/
def IPMask.String (m : List Nat) : String :=
  if m.isEmpty then "<nil>" else String.mk (hexChars m)

/-- Go `IP.String()`. -/
def IP.String (v6 : IPv6Text) (ip : List Nat) : String :=
  if ip.length = 0 then "<nil>"
  else if ip.length ≠ 4 ∧ ip.length ≠ 16 then "?" ++ String.mk (hexChars ip)
  else
    match IP.To4 ip with
    | [a, b, c, d] =>
      String.mk (appendDecimal a ++ '.' :: appendDecimal b ++ '.' :: appendDecimal c ++
        '.' :: appendDecimal d)
    | _ => v6.format ip

/-- Go `(*IPNet).String()`. -/
def IPNet.String (v6 : IPv6Text) (n : IPNet) : String :=
  match networkNumberAndMask n with
  | none => "<nil>"
  | some (nn, m) =>
    match simpleMaskLength m with
    | none => IP.String v6 nn ++ "/" ++ IPMask.String m
    | some l => IP.String v6 nn ++ "/" ++ Nat.repr l

/-- The cut `s[:i], s[i+1:]` at the first index `i` of the byte `c`. -/
def cutAt (c : Char) : List Char → Option (List Char × List Char)
  | [] => none
  | x :: t =>
    if x = c then some ([], t)
    else (cutAt c t).map fun r => (x :: r.1, r.2)

/-- Go `net.ParseCIDR(s)`, by the network it returns (the program drops the
address). -/
def ParseCIDR (v6 : IPv6Text) (s : String) : Except GoError IPNet :=
  match cutAt '/' s.data with
  | none => .error (.ParseError "CIDR address" s)
  | some (addr, mask) =>
    match ParseAddr v6 addr with
    | none => .error (.ParseError "CIDR address" s)
    | some ipAddr =>
      let zone := match ipAddr with | .v4 _ => "" | .v6 _ z => z
      let bitLen := match ipAddr with | .v4 _ => 32 | .v6 _ _ => 128
      let addr16 := match ipAddr with | .v4 b => v4InV6Prefix ++ b | .v6 b _ => b
      if zone ≠ "" then .error (.ParseError "CIDR address" s)
      else
        let r := dtoi mask
        if !r.2.2 ∨ r.2.1 ≠ mask.length ∨ r.1 > bitLen then
          .error (.ParseError "CIDR address" s)
        else
          let m := CIDRMask r.1 bitLen
          .ok { IP := IP.Mask addr16 m, Mask := m }

end net

/-! ## `Interface` and `New` -/

/-- Go `type Interface struct`. -/
structure Interface where
  HardwareAddr : String
  IPv4Addr : String
  IPv4Mask : String
  IPv4Network : String
  IPv6Addr : String
  MTU : Int
  Name : String
  deriving DecidableEq, Repr

/-- Go `New(iface)`: the pair `(i, err)` it returns, `none` for `nil`, or the
panic it stops in.  Fields a composite literal leaves out are zero. -/
def New (v6 : net.IPv6Text) (iface : net.Interface) : Go (Option Interface × Option GoError) :=
  match iface.Addrs with
  | .error err => .ret (none, some err)
  | .ok addrs =>
    let ipv4 := (extractAddrs addrs).1
    let ipv6 := (extractAddrs addrs).2
    if ipv4.utf8ByteSize = 0 then
      .ret (some { HardwareAddr := "", IPv4Addr := "", IPv4Mask := "", IPv4Network := "",
                   IPv6Addr := ipv6, MTU := 0, Name := iface.Name }, none)
    else
      let ipv4Split := strings.Split ipv4 "/"
      match ipv4Split[0]? with
      | none => .panicIndex 0 ipv4Split.length
      | some ipv4addr =>
        match ipv4Split[1]? with
        | none => .panicIndex 1 ipv4Split.length
        | some ipv4Cidr =>
          match toDottedDec ipv4Cidr with
          | .panicIndex i len => .panicIndex i len
          | .ret (_, some err) => .ret (none, some err)
          | .ret (ipv4Mask, none) =>
            match net.ParseCIDR v6 ipv4 with
            | .error err => .ret (none, some err)
            | .ok ipnet =>
              .ret (some { HardwareAddr := net.HardwareAddr.String iface.HardwareAddr,
                           IPv4Addr := ipv4addr,
                           IPv4Mask := ipv4Mask,
                           IPv4Network := net.IPNet.String v6 ipnet,
                           IPv6Addr := ipv6,
                           MTU := iface.MTU,
                           Name := iface.Name }, none)

/-! ## Package `fmt` and `Interface.String` -/

namespace fmt

/-- An operand of `Sprintf`, of one of the two types the program passes. -/
inductive Arg where
  | str (s : String)
  | int (n : Int)
  deriving DecidableEq, Repr

/-- Go `padString` and `pad` without the zero flag: when the text has fewer
than `wid` runes, spaces fill it up, after the text with the flag `'-'` and
before it otherwise; a longer text is written as it is. -/
def pad (minus : Bool) (wid : Nat) (s : List Char) : List Char :=
  if minus then s ++ List.replicate (wid - s.length) ' '
  else List.replicate (wid - s.length) ' ' ++ s

/-- Go `fmtInteger` for the verb `%d` of a signed integer without flags: a
`'-'` for a negative number, then the decimal digits of its magnitude. -/
def fmtInteger (n : Int) : List Char :=
  if n < 0 then '-' :: (Nat.repr n.natAbs).data else (Nat.repr n.natAbs).data

/-- Where `doPrintf` stands in the format: in plain text, or after a `'%'`
with the flag `'-'` seen or not, the width read so far and whether a digit of
it was read. -/
inductive Mode where
  | text
  | verb (minus : Bool) (wid : Nat) (digits : Bool)
  deriving DecidableEq, Repr

/-- The loop of Go `doPrintf` over the format, for the part of `fmt` that the
program uses: plain text, and the verbs `%s` of a string and `%d` of an `int`
with an optional flag `'-'` and an optional width.  The result is `none` when
the format or the operands ask for anything else (other flags, verbs or
operand types, a precision, `*`, an argument index, a width above 1000000, a
missing or an extra operand). -/
def doPrintf : List Char → Mode → List Arg → Option (List Char)
  | [], .text, [] => some []
  | [], .text, _ :: _ => none
  | [], .verb _ _ _, _ => none
  | c :: t, .text, args =>
    if c = '%' then doPrintf t (.verb false 0 false) args
    else (doPrintf t .text args).map (c :: ·)
  | c :: t, .verb minus wid digits, args =>
    if c = '-' then
      if digits then none else doPrintf t (.verb true wid false) args
    else if strconv.isDigit c then
      if c = '0' ∧ digits = false then none
      else if wid * 10 + strconv.digitVal c > 1000000 then none
      else doPrintf t (.verb minus (wid * 10 + strconv.digitVal c) true) args
    else if c = 's' then
      match args with
      | .str s :: rest => (doPrintf t .text rest).map (pad minus wid s.data ++ ·)
      | _ => none
    else if c = 'd' then
      match args with
      | .int n :: rest => (doPrintf t .text rest).map (pad minus wid (fmtInteger n) ++ ·)
      | _ => none
    else none

/-- Go `fmt.Sprintf(format, args...)` on the part of `fmt` that `doPrintf`
embeds, `none` outside of it. -/
def Sprintf (format : String) (args : List Arg) : Option String :=
  (doPrintf format.data .text args).map String.mk

end fmt

/-- Go `(iface *Interface).String()`; `goos` is the constant `runtime.GOOS`.
The result is `some` line: the two formats stay within the embedded part of
`fmt`. -/
def Interface.String (goos : String) (iface : Interface) : Option String :=
  let ifaceString :=
    if goos = "windows" then "%-35s  %-15s  %-15s  %-18s  %4d  %17s  %s"
    else "%-10s  %-15s  %-15s  %-18s  %4d  %17s  %s"
  fmt.Sprintf ifaceString
    [.str iface.Name, .str iface.IPv4Addr, .str iface.IPv4Mask, .str iface.IPv4Network,
     .int iface.MTU, .str iface.HardwareAddr, .str iface.IPv6Addr]

/-! ## Notions the statements use -/

/-- The choice `extractAddrs` makes for one family: the last entry of `l`
that satisfies `p`, or `init` when none does. -/
def lastMatch (p : String → Bool) : List String → String → String
  | [], init => init
  | a :: rest, init => lastMatch p rest (if p a then a else init)

/-- Octet `k` (0 to 3) of the mask of length `n`, as the specification words
it: 255 below `n / 8`, `256 - 2 ^ (8 - n % 8)` at `n / 8` when `n % 8 > 0`,
and 0 otherwise. -/
def maskOctet (n k : Nat) : Nat :=
  if k < n / 8 then 255
  else if k = n / 8 ∧ n % 8 > 0 then 256 - 2 ^ (8 - n % 8)
  else 0

/-- Four numbers in decimal, joined by `'.'`. -/
def dottedQuad (a b c d : Nat) : String :=
  Nat.repr a ++ "." ++ Nat.repr b ++ "." ++ Nat.repr c ++ "." ++ Nat.repr d

/-- The decimal literal of an integer: a `'-'` before the digits of a negative
one. -/
def decimalLiteral : Int → String
  | Int.ofNat m => Nat.repr m
  | Int.negSucc m => "-" ++ Nat.repr (m + 1)

/-- The number a list of digits denotes, read after the number `acc`. -/
def digitsValue (l : List Char) (acc : Nat) : Nat :=
  l.foldl (fun a c => a * 10 + strconv.digitVal c) acc

/-- A text padded with spaces on the right up to `w` characters. -/
def padRight (s : String) (w : Nat) : String :=
  String.mk (s.data ++ List.replicate (w - s.length) ' ')

/-- A text padded with spaces on the left up to `w` characters. -/
def padLeft (s : String) (w : Nat) : String :=
  String.mk (List.replicate (w - s.length) ' ' ++ s.data)

/-- The width of the name column: 35 on Windows, 10 elsewhere. -/
def nameWidth (goos : String) : Nat := if goos = "windows" then 35 else 10

/-- The line of `Interface.String` after the name column and its separator:
the six other fields in their columns, two spaces between them. -/
def otherFields (r : Interface) : String :=
  padRight r.IPv4Addr 15 ++ "  " ++ padRight r.IPv4Mask 15 ++ "  " ++
    padRight r.IPv4Network 18 ++ "  " ++ padLeft (decimalLiteral r.MTU) 4 ++ "  " ++
    padLeft r.HardwareAddr 17 ++ "  " ++ r.IPv6Addr

/-- A non-empty sequence of decimal digits. -/
def isDigits (l : List Char) : Prop := l ≠ [] ∧ ∀ c ∈ l, strconv.isDigit c = true

/-! ## `extractAddrs` -/

theorem extractAddrsLoop_eq (l : List String) (x y : String) :
    extractAddrsLoop l (x, y) =
      (lastMatch (fun a => strings.Contains a ".") l x,
       lastMatch (fun a => strings.Contains a ":") l y) := by
  induction l generalizing x y with
  | nil => rfl
  | cons a rest ih => simp only [extractAddrsLoop, lastMatch, ih]

theorem extractAddrs_eq (l : List String) :
    extractAddrs l =
      (lastMatch (fun a => strings.Contains a ".") l "",
       lastMatch (fun a => strings.Contains a ":") l "") :=
  extractAddrsLoop_eq l "" ""

theorem lastMatch_append (p : String → Bool) (l1 l2 : List String) (init : String) :
    lastMatch p (l1 ++ l2) init = lastMatch p l2 (lastMatch p l1 init) := by
  induction l1 generalizing init with
  | nil => rfl
  | cons a rest ih => exact ih _

theorem lastMatch_none (p : String → Bool) (l : List String) (init : String)
    (h : ∀ a ∈ l, p a = false) : lastMatch p l init = init := by
  induction l generalizing init with
  | nil => rfl
  | cons a rest ih =>
    have ha : p a = false := h a (List.mem_cons_self a rest)
    simp only [lastMatch, ha]
    exact ih init fun b hb => h b (List.mem_cons_of_mem a hb)

theorem lastMatch_filter (p : String → Bool) (l : List String) (init : String) :
    lastMatch p l init = ((l.filter p).getLast?).getD init := by
  induction l using List.reverseRecOn generalizing init with
  | nil => rfl
  | append_singleton l a ih =>
    rw [lastMatch_append, List.filter_append]
    cases hp : p a
    · simp [lastMatch, hp, ih]
    · simp [lastMatch, hp]

/-- Where the last match sits: either nothing matches and the result is
`init`, or the list splits around the result with no match after it. -/
theorem lastMatch_split (p : String → Bool) (l : List String) (init : String) :
    (lastMatch p l init = init ∧ ∀ a ∈ l, p a = false) ∨
    (∃ pre post, l = pre ++ lastMatch p l init :: post ∧ p (lastMatch p l init) = true ∧
      ∀ a ∈ post, p a = false) := by
  induction l using List.reverseRecOn with
  | nil => left; exact ⟨rfl, fun a h => by cases h⟩
  | append_singleton l a ih =>
    rw [lastMatch_append]
    cases hp : p a
    · simp only [lastMatch, hp]
      rcases ih with ⟨h1, h2⟩ | ⟨pre, post, h1, h2, h3⟩
      · left
        refine ⟨h1, fun b hb => ?_⟩
        rcases List.mem_append.1 hb with hb | hb
        · exact h2 b hb
        · rw [List.mem_singleton.1 hb]; exact hp
      · right
        refine ⟨pre, post ++ [a], ?_, h2, fun b hb => ?_⟩
        · conv_lhs => rw [h1]
          simp
        · rcases List.mem_append.1 hb with hb | hb
          · exact h3 b hb
          · rw [List.mem_singleton.1 hb]; exact hp
    · right
      refine ⟨l, [], ?_, ?_, fun b hb => by cases hb⟩
      · simp [lastMatch, hp]
      · simp [lastMatch, hp]

/-- C5: `extractAddrs` returns as ipv4 the last entry that contains `'.'` and
as ipv6 the last entry that contains `':'`: each result is the empty string
when no entry of its family exists, and otherwise the list splits around it
with no entry of that family after it, so earlier entries of the family are
dropped. -/
theorem extractAddrs_last_of_each_family (addrs : List String) :
    (((extractAddrs addrs).1 = "" ∧ ∀ a ∈ addrs, strings.Contains a "." = false) ∨
      (∃ pre post, addrs = pre ++ (extractAddrs addrs).1 :: post ∧
        strings.Contains (extractAddrs addrs).1 "." = true ∧
        ∀ a ∈ post, strings.Contains a "." = false)) ∧
    (((extractAddrs addrs).2 = "" ∧ ∀ a ∈ addrs, strings.Contains a ":" = false) ∨
      (∃ pre post, addrs = pre ++ (extractAddrs addrs).2 :: post ∧
        strings.Contains (extractAddrs addrs).2 ":" = true ∧
        ∀ a ∈ post, strings.Contains a ":" = false)) := by
  rw [extractAddrs_eq]
  exact ⟨lastMatch_split _ addrs "", lastMatch_split _ addrs ""⟩

theorem perm_short_eq {l1 l2 : List String} (h : l1.Perm l2) (hl : l1.length ≤ 1) : l1 = l2 := by
  match l1, hl with
  | [], _ => exact (List.nil_perm.1 h).symm
  | [a], _ => exact List.singleton_perm.1 h
  | _ :: _ :: _, hl => simp at hl

/-- C9: when at most one entry contains `'.'` and at most one contains `':'`,
every permutation of the list gives the same pair `(ipv4, ipv6)`. -/
theorem extractAddrs_perm (l1 l2 : List String) (h : l1.Perm l2)
    (h4 : (l1.filter fun a => strings.Contains a ".").length ≤ 1)
    (h6 : (l1.filter fun a => strings.Contains a ":").length ≤ 1) :
    extractAddrs l1 = extractAddrs l2 := by
  rw [extractAddrs_eq, extractAddrs_eq, lastMatch_filter, lastMatch_filter, lastMatch_filter,
    lastMatch_filter, perm_short_eq (h.filter _) h4, perm_short_eq (h.filter _) h6]

theorem extractAddrs_perm_witness :
    extractAddrs ["192.168.1.5/24", "fe80::1/64"] = extractAddrs ["fe80::1/64", "192.168.1.5/24"] ∧
    extractAddrs ["192.168.1.5/24", "fe80::1/64"] = ("192.168.1.5/24", "fe80::1/64") ∧
    extractAddrs ["fe80::1/64", "192.168.1.5/24"] = ("192.168.1.5/24", "fe80::1/64") :=
  ⟨extractAddrs_perm ["192.168.1.5/24", "fe80::1/64"] ["fe80::1/64", "192.168.1.5/24"]
      (List.Perm.swap _ _ _) (by decide) (by decide),
    by decide, by decide⟩

theorem lastMatch_filter_or (p q : String → Bool) (l : List String) (init : String) :
    lastMatch p (l.filter fun a => p a || q a) init = lastMatch p l init := by
  induction l generalizing init with
  | nil => rfl
  | cons a rest ih =>
    cases hp : p a <;> cases hq : q a <;> simp [List.filter, lastMatch, hp, hq, ih]

theorem lastMatch_filter_or_right (p q : String → Bool) (l : List String) (init : String) :
    lastMatch q (l.filter fun a => p a || q a) init = lastMatch q l init := by
  induction l generalizing init with
  | nil => rfl
  | cons a rest ih =>
    cases hp : p a <;> cases hq : q a <;> simp [List.filter, lastMatch, hp, hq, ih]

theorem extractAddrs_filter (l : List String) :
    extractAddrs (l.filter fun a => strings.Contains a "." || strings.Contains a ":") =
      extractAddrs l := by
  rw [extractAddrs_eq, extractAddrs_eq, lastMatch_filter_or, lastMatch_filter_or_right]

/-- C10: entries that contain neither `'.'` nor `':'` are ignored.  Two lists
that differ only in such entries (they agree once these are filtered out) give
the same results, in particular a list with one such entry inserted anywhere;
a list of such entries only, and the empty list, give two empty strings. -/
theorem extractAddrs_ignores_other_entries :
    (∀ l l' : List String,
      (l.filter fun a => strings.Contains a "." || strings.Contains a ":") =
        (l'.filter fun a => strings.Contains a "." || strings.Contains a ":") →
      extractAddrs l = extractAddrs l') ∧
    (∀ (pre post : List String) (x : String),
      strings.Contains x "." = false → strings.Contains x ":" = false →
      extractAddrs (pre ++ x :: post) = extractAddrs (pre ++ post)) ∧
    (∀ l : List String,
      (∀ x ∈ l, strings.Contains x "." = false ∧ strings.Contains x ":" = false) →
      extractAddrs l = ("", "")) ∧
    extractAddrs [] = ("", "") := by
  refine ⟨fun l l' h => ?_, fun pre post x h4 h6 => ?_, fun l h => ?_, rfl⟩
  · rw [← extractAddrs_filter l, h, extractAddrs_filter]
  · rw [← extractAddrs_filter (pre ++ x :: post), ← extractAddrs_filter (pre ++ post)]
    simp [List.filter_append, List.filter, h4, h6]
  · rw [extractAddrs_eq, lastMatch_none _ l "" fun a ha => (h a ha).1,
      lastMatch_none _ l "" fun a ha => (h a ha).2]


/-! ## `toDottedDec` -/

set_option maxRecDepth 100000 in
/-- C1: for every `n` from 0 to 32, `toDottedDec` on the decimal literal of
`n` returns, without error or panic, four decimal octets joined by `'.'`;
octet `k` is 255 below `n / 8`, `256 - 2 ^ (8 - n % 8)` at `n / 8` when
`n % 8 > 0` and 0 otherwise, each octet is at most 255, and the 32-bit value of
the four octets is `n` one-bits followed by `32 - n` zero-bits. -/
theorem toDottedDec_mask (n : Nat) (h : n ≤ 32) :
    toDottedDec (Nat.repr n) =
        .ret (dottedQuad (maskOctet n 0) (maskOctet n 1) (maskOctet n 2) (maskOctet n 3), none) ∧
      (∀ k, maskOctet n k ≤ 255) ∧
      maskOctet n 0 * 2 ^ 24 + maskOctet n 1 * 2 ^ 16 + maskOctet n 2 * 2 ^ 8 + maskOctet n 3 =
        2 ^ 32 - 2 ^ (32 - n) := by
  refine ⟨?_, ?_, ?_⟩
  · interval_cases n <;> decide
  · intro k
    unfold maskOctet
    have hp : 0 < 2 ^ (8 - n % 8) := Nat.two_pow_pos _
    split
    · exact le_refl _
    · split
      · omega
      · omega
  · interval_cases n <;> decide

theorem toDottedDec_mask_witness :
    toDottedDec "0" = .ret ("0.0.0.0", none) ∧
    toDottedDec "24" = .ret ("255.255.255.0", none) ∧
    toDottedDec "32" = .ret ("255.255.255.255", none) :=
  ⟨(toDottedDec_mask 0 (by decide)).1, (toDottedDec_mask 24 (by decide)).1,
    (toDottedDec_mask 32 (by decide)).1⟩

theorem digitChar_isDigit (d : Nat) (h : d < 10) :
    strconv.isDigit (Nat.digitChar d) = true ∧ strconv.digitVal (Nat.digitChar d) = d := by
  interval_cases d <;> decide

theorem toDigitsCore_spec (fuel : Nat) : ∀ (n : Nat) (ds : List Char), n < fuel →
    ∃ pre, Nat.toDigitsCore 10 fuel n ds = pre ++ ds ∧ pre ≠ [] ∧
      (∀ c ∈ pre, strconv.isDigit c = true) ∧
      ∀ acc, digitsValue pre acc = acc * 10 ^ pre.length + n := by
  induction fuel with
  | zero => intro n ds h; omega
  | succ fuel ih =>
    intro n ds h
    have hd := digitChar_isDigit (n % 10) (Nat.mod_lt _ (by decide))
    unfold Nat.toDigitsCore
    by_cases h0 : n / 10 = 0
    · refine ⟨[Nat.digitChar (n % 10)], by simp [h0], by simp, ?_, ?_⟩
      · intro c hc
        rw [List.mem_singleton.1 hc]; exact hd.1
      · intro acc
        simp only [digitsValue, List.foldl, hd.2, List.length_singleton, pow_one]
        omega
    · obtain ⟨pre, h1, _, h3, h4⟩ := ih (n / 10) (Nat.digitChar (n % 10) :: ds) (by omega)
      refine ⟨pre ++ [Nat.digitChar (n % 10)], by simp [h0, h1], by simp, ?_, ?_⟩
      · intro c hc
        rcases List.mem_append.1 hc with hc | hc
        · exact h3 c hc
        · rw [List.mem_singleton.1 hc]; exact hd.1
      · intro acc
        have := h4 acc
        simp only [digitsValue, List.foldl_append, List.foldl, hd.2, List.length_append,
          List.length_singleton, pow_succ] at this ⊢
        rw [this]
        have := Nat.div_add_mod n 10
        nlinarith [this]

/-- The digits of `Nat.repr m`: a non-empty list of decimal digits that
denotes `m`. -/
theorem repr_digits (m : Nat) :
    (Nat.repr m).data ≠ [] ∧ (∀ c ∈ (Nat.repr m).data, strconv.isDigit c = true) ∧
      digitsValue (Nat.repr m).data 0 = m := by
  obtain ⟨pre, h1, h2, h3, h4⟩ := toDigitsCore_spec (m + 1) m [] (Nat.lt_succ_self m)
  have hd : (Nat.repr m).data = pre := by
    simp [Nat.repr, Nat.toDigits, h1, List.asString]
  rw [hd]
  exact ⟨h2, h3, by simpa using h4 0⟩

theorem atoiLoop_digits (l : List Char) (acc : Nat) (h : ∀ c ∈ l, strconv.isDigit c = true) :
    strconv.atoiLoop l (acc : Int) = some ((digitsValue l acc : Nat) : Int) := by
  induction l generalizing acc with
  | nil => rfl
  | cons c t ih =>
    have hc := h c (List.mem_cons_self c t)
    simp only [strconv.atoiLoop, hc, if_true]
    have := ih (acc * 10 + strconv.digitVal c) fun b hb => h b (List.mem_cons_of_mem c hb)
    simpa [digitsValue] using this

theorem parseUintLoop_digits (l : List Char) (acc : Nat)
    (h : ∀ c ∈ l, strconv.isDigit c = true) :
    strconv.parseUintLoop l acc = .error .ErrRange ∨
      strconv.parseUintLoop l acc = .ok (digitsValue l acc) := by
  induction l generalizing acc with
  | nil => right; rfl
  | cons c t ih =>
    have hc := h c (List.mem_cons_self c t)
    simp only [strconv.parseUintLoop, hc, Bool.not_true, Bool.false_eq_true, if_false]
    by_cases h1 : acc ≥ strconv.maxUint64 / 10 + 1
    · left; simp [h1]
    · simp only [h1, if_false]
      have hlt : acc * 10 < 2 ^ 64 := by
        simp only [strconv.maxUint64] at h1
        omega
      rw [Nat.mod_eq_of_lt hlt]
      by_cases h2 : (acc * 10 + strconv.digitVal c) % 2 ^ 64 < acc * 10 ∨
          (acc * 10 + strconv.digitVal c) % 2 ^ 64 > strconv.maxUint64
      · left; rw [if_pos h2]
      · rw [if_neg h2]
        have hfit : (acc * 10 + strconv.digitVal c) % 2 ^ 64 = acc * 10 + strconv.digitVal c := by
          have hv : strconv.digitVal c ≤ 9 := by
            simp only [strconv.isDigit, Bool.and_eq_true, decide_eq_true_eq] at hc
            simp only [strconv.digitVal]; omega
          push_neg at h2
          apply Nat.mod_eq_of_lt
          by_contra hge
          have h3 : (acc * 10 + strconv.digitVal c) % 2 ^ 64 =
              acc * 10 + strconv.digitVal c - 2 ^ 64 := by
            rw [Nat.mod_eq_sub_mod (by omega), Nat.mod_eq_of_lt (by omega)]
          omega
        rw [hfit]
        exact ih _ fun b hb => h b (List.mem_cons_of_mem c hb)

theorem isDigit_ne_sign (c : Char) (h : strconv.isDigit c = true) :
    (c == '-') = false ∧ (c == '+') = false := by
  simp only [strconv.isDigit, Bool.and_eq_true, decide_eq_true_eq] at h
  constructor
  · rw [beq_eq_false_iff_ne]; rintro rfl; revert h; decide
  · rw [beq_eq_false_iff_ne]; rintro rfl; revert h; decide

/-- On the decimal literal of a natural number `Atoi` gives the number back
or, when the number does not fit an `int`, an error. -/
theorem Atoi_repr (m : Nat) :
    strconv.Atoi (Nat.repr m) = .ok (m : Int) ∨ ∃ e, strconv.Atoi (Nat.repr m) = .error e := by
  obtain ⟨h1, h2, h3⟩ := repr_digits m
  unfold strconv.Atoi
  cases hd : (Nat.repr m).data with
  | nil => exact absurd hd h1
  | cons c t =>
    rw [hd] at h2 h3
    have hs := isDigit_ne_sign c (h2 c (List.mem_cons_self c t))
    split
    · left
      simp only [hs.1, hs.2, Bool.or_false, Bool.false_eq_true, if_false, List.isEmpty_cons]
      have := atoiLoop_digits (c :: t) 0 h2
      simp only [Nat.cast_zero] at this
      rw [this, h3]
    · simp only [strconv.ParseInt, hs.1, hs.2, Bool.or_false, Bool.false_eq_true, if_false,
        strconv.ParseUint, List.isEmpty_cons]
      rcases parseUintLoop_digits (c :: t) 0 h2 with h | h
      · right; rw [h]; exact ⟨_, rfl⟩
      · rw [h, h3]
        by_cases hb : (9223372036854775808 : Nat) ≤ m
        · right; simp [hb]
        · left; simp [hb]

/-- On `'-'` followed by the decimal literal of `m` `Atoi` gives `-m` or an
error. -/
theorem Atoi_neg_repr (m : Nat) :
    strconv.Atoi ("-" ++ Nat.repr m) = .ok (-(m : Int)) ∨
      ∃ e, strconv.Atoi ("-" ++ Nat.repr m) = .error e := by
  obtain ⟨h1, h2, h3⟩ := repr_digits m
  have hdata : ("-" ++ Nat.repr m).data = '-' :: (Nat.repr m).data := by
    simp [String.data_append]
  unfold strconv.Atoi
  rw [hdata]
  cases hd : (Nat.repr m).data with
  | nil => exact absurd hd h1
  | cons c t =>
    rw [hd] at h2 h3
    have hs := isDigit_ne_sign c (h2 c (List.mem_cons_self c t))
    split
    · left
      have := atoiLoop_digits (c :: t) 0 h2
      simp only [Nat.cast_zero] at this
      simp [this, h3]
    · simp only [strconv.ParseInt, strconv.ParseUint, List.isEmpty_cons]
      rcases parseUintLoop_digits (c :: t) 0 h2 with h | h
      · right; simp [h]
      · rw [h3] at h
        by_cases hb : (9223372036854775808 : Nat) < m
        · right; simp [h, hb]
        · left; simp [h, hb]

/-- C6: for every integer `n` below 0 or above 32, `toDottedDec` on the
decimal literal of `n` returns an error and the empty string as mask. -/
theorem toDottedDec_out_of_range (n : Int) (h : n < 0 ∨ n > 32) :
    ∃ err, toDottedDec (decimalLiteral n) = .ret ("", some err) := by
  cases n with
  | ofNat m =>
    have hm : (m : Int) > 32 := by
      rcases h with h | h
      · exact absurd h (by simp)
      · exact h
    simp only [decimalLiteral, toDottedDec]
    rcases Atoi_repr m with h1 | ⟨e, h1⟩
    · rw [h1]
      dsimp only
      rw [if_pos (Or.inl hm)]
      exact ⟨_, rfl⟩
    · rw [h1]; exact ⟨_, rfl⟩
  | negSucc m =>
    simp only [decimalLiteral, toDottedDec]
    rcases Atoi_neg_repr (m + 1) with h1 | ⟨e, h1⟩
    · have hneg : -((m + 1 : Nat) : Int) < 0 := by push_cast; omega
      rw [h1]
      dsimp only
      rw [if_pos (Or.inr hneg)]
      exact ⟨_, rfl⟩
    · rw [h1]; exact ⟨_, rfl⟩

theorem toDottedDec_out_of_range_witness :
    (∃ err, toDottedDec "-1" = .ret ("", some err)) ∧
    (∃ err, toDottedDec "33" = .ret ("", some err)) := by
  have h1 := toDottedDec_out_of_range (-1) (Or.inl (by decide))
  have h2 := toDottedDec_out_of_range 33 (Or.inr (by decide))
  rw [show decimalLiteral (-1) = "-1" by decide] at h1
  rw [show decimalLiteral 33 = "33" by decide] at h2
  exact ⟨h1, h2⟩

/-! ## `New` -/

theorem utf8ByteSize_eq_zero (s : String) : s.utf8ByteSize = 0 ↔ s = "" := by
  rcases s with ⟨l⟩
  cases l with
  | nil => exact ⟨fun _ => rfl, fun _ => rfl⟩
  | cons c t =>
    have hc := Char.utf8Size_pos c
    constructor
    · intro h
      simp only [String.utf8ByteSize, String.utf8ByteSize.go] at h
      omega
    · intro h
      exact absurd (congrArg String.data h) (by simp)

theorem splitChars_slash_none (a cur : List Char) (ha : '/' ∉ a) :
    strings.splitChars ['/'] a 0 cur = [String.mk (cur.reverse ++ a)] := by
  induction a generalizing cur with
  | nil => simp [strings.splitChars]
  | cons c t ih =>
    have hc : c ≠ '/' := fun h => ha (h ▸ List.mem_cons_self c t)
    have ht : '/' ∉ t := fun h => ha (List.mem_cons_of_mem c h)
    have hp : List.isPrefixOf ['/'] (c :: t) = false := by
      simp [List.isPrefixOf, Ne.symm hc]
    rw [strings.splitChars, if_neg (by simp [hp]), ih _ ht]
    simp

theorem splitChars_slash_cut (a r cur : List Char) (ha : '/' ∉ a) :
    strings.splitChars ['/'] (a ++ '/' :: r) 0 cur =
      String.mk (cur.reverse ++ a) :: strings.splitChars ['/'] r 0 [] := by
  induction a generalizing cur with
  | nil =>
    have hp : List.isPrefixOf ['/'] ('/' :: r) = true := by simp [List.isPrefixOf]
    rw [List.nil_append, strings.splitChars, if_pos hp]
    simp
  | cons c t ih =>
    have hc : c ≠ '/' := fun h => ha (h ▸ List.mem_cons_self c t)
    have ht : '/' ∉ t := fun h => ha (List.mem_cons_of_mem c h)
    have hp : List.isPrefixOf ['/'] (c :: (t ++ '/' :: r)) = false := by
      simp [List.isPrefixOf, Ne.symm hc]
    rw [List.cons_append, strings.splitChars, if_neg (by simp [hp]), ih _ ht]
    simp

/-- A text without `'/'` is the only piece of its split. -/
theorem Split_no_slash (s : String) (h : '/' ∉ s.data) : strings.Split s "/" = [s] := by
  have := splitChars_slash_none s.data [] h
  simpa [strings.Split] using this

/-- The split of `a/r` starts with `a` when `a` has no `'/'`. -/
theorem Split_cut (a r : List Char) (ha : '/' ∉ a) :
    strings.Split (String.mk (a ++ '/' :: r)) "/" =
      String.mk a :: strings.Split (String.mk r) "/" := by
  have := splitChars_slash_cut a r [] ha
  simpa [strings.Split] using this

theorem cutAt_spec (c : Char) (s a r : List Char) (h : net.cutAt c s = some (a, r)) :
    s = a ++ c :: r ∧ c ∉ a := by
  induction s generalizing a with
  | nil => simp [net.cutAt] at h
  | cons x t ih =>
    by_cases hx : x = c
    · simp only [net.cutAt, hx, if_true, Option.some.injEq, Prod.mk.injEq] at h
      obtain ⟨rfl, rfl⟩ := h
      simp [hx]
    · simp only [net.cutAt, hx, if_false, Option.map_eq_some'] at h
      obtain ⟨⟨a', r'⟩, h1, h2⟩ := h
      simp only [Prod.mk.injEq] at h2
      obtain ⟨rfl, rfl⟩ := h2
      obtain ⟨h3, h4⟩ := ih a' h1
      refine ⟨by rw [h3]; rfl, ?_⟩
      intro hm
      rcases List.mem_cons.1 hm with hm | hm
      · exact hx hm.symm
      · exact h4 hm

theorem cutAt_append (c : Char) (a r : List Char) (h : c ∉ a) :
    net.cutAt c (a ++ c :: r) = some (a, r) := by
  induction a with
  | nil => simp [net.cutAt]
  | cons x t ih =>
    have hx : x ≠ c := fun e => h (e ▸ List.mem_cons_self x t)
    have ht : c ∉ t := fun e => h (List.mem_cons_of_mem x e)
    simp [net.cutAt, hx, ih ht]

theorem containsChars_single (c : Char) (s : List Char) :
    strings.containsChars s [c] = true ↔ c ∈ s := by
  induction s with
  | nil => simp [strings.containsChars]
  | cons x t ih =>
    simp only [strings.containsChars, Bool.or_eq_true, ih, List.mem_cons]
    have : List.isPrefixOf [c] (x :: t) = true ↔ c = x := by simp [List.isPrefixOf]
    rw [this]

/-- Go `strings.Contains a "."` tests whether the character `'.'` occurs in `a`. -/
theorem Contains_dot (a : String) : strings.Contains a "." = true ↔ '.' ∈ a.data :=
  containsChars_single '.' a.data

/-- Go `strings.Contains a ":"` tests whether the character `':'` occurs in `a`. -/
theorem Contains_colon (a : String) : strings.Contains a ":" = true ↔ ':' ∈ a.data :=
  containsChars_single ':' a.data

/-- C2 (the code at the claim's inputs): when the selected IPv4 string has no
`'/'`, `New` does not return at all: the index expression `ipv4Split[1]`
panics on the one-element split. -/
theorem New_panics_without_slash (v6 : net.IPv6Text) (iface : net.Interface)
    (addrs : List String) (hA : iface.Addrs = .ok addrs)
    (h4 : (extractAddrs addrs).1 ≠ "") (hs : '/' ∉ (extractAddrs addrs).1.data) :
    New v6 iface = .panicIndex 1 1 := by
  unfold New
  rw [hA]
  dsimp only
  rw [if_neg (fun h => h4 ((utf8ByteSize_eq_zero _).1 h)), Split_no_slash _ hs]
  rfl

theorem New_panics_without_slash_witness :
    New ⟨fun _ => none, fun _ => ""⟩
      ⟨"eth0", [0xaa, 0xbb, 0xcc, 0xdd, 0xee, 0xff], 1500, .ok ["10.0.0.5"]⟩ = .panicIndex 1 1 :=
  New_panics_without_slash _ _ ["10.0.0.5"] rfl (by decide) (by decide)

/-- C4: when no address contains `'.'`, `New` returns without error a record
that holds the name and, as `IPv6Addr`, the last address that contains `':'`
(empty if none); the hardware address and the three IPv4 fields are empty and
`MTU` is 0, whatever the interface has. -/
theorem New_without_ipv4 (v6 : net.IPv6Text) (iface : net.Interface) (addrs : List String)
    (hA : iface.Addrs = .ok addrs) (h4 : ∀ a ∈ addrs, strings.Contains a "." = false) :
    New v6 iface =
      .ret (some { HardwareAddr := "", IPv4Addr := "", IPv4Mask := "", IPv4Network := "",
                   IPv6Addr := ((addrs.filter fun a => strings.Contains a ":").getLast?).getD "",
                   MTU := 0, Name := iface.Name }, none) := by
  have h1 : (extractAddrs addrs).1 = "" := by
    rw [extractAddrs_eq]; exact lastMatch_none _ addrs "" h4
  have h2 : (extractAddrs addrs).2 =
      ((addrs.filter fun a => strings.Contains a ":").getLast?).getD "" := by
    rw [extractAddrs_eq]; exact lastMatch_filter _ addrs ""
  unfold New
  rw [hA]
  dsimp only
  rw [if_pos ((utf8ByteSize_eq_zero _).2 h1), h2]

theorem New_without_ipv4_witness :
    New ⟨fun _ => none, fun _ => ""⟩ ⟨"wlan0", [], 0, .ok ["fe80::1/64"]⟩ =
      .ret (some { HardwareAddr := "", IPv4Addr := "", IPv4Mask := "", IPv4Network := "",
                   IPv6Addr := "fe80::1/64", MTU := 0, Name := "wlan0" }, none) :=
  New_without_ipv4 _ _ ["fe80::1/64"] rfl (by decide)


set_option maxRecDepth 100000 in
/-- What `toDottedDec` returns once `Atoi` has read a number from 0 to 32. -/
theorem toDottedDec_of_Atoi (cidr : String) (n : Nat) (hn : n ≤ 32)
    (h : strconv.Atoi cidr = .ok (n : Int)) :
    toDottedDec cidr =
      .ret (dottedQuad (maskOctet n 0) (maskOctet n 1) (maskOctet n 2) (maskOctet n 3), none) := by
  unfold toDottedDec
  rw [h]
  dsimp only
  rw [if_neg (by omega)]
  interval_cases n <;> rfl

theorem dottedQuad_ne_empty (a b c d : Nat) : dottedQuad a b c d ≠ "" := by
  intro h
  have := congrArg String.length h
  simp only [dottedQuad, String.length_append] at this
  have h1 : ".".length = 1 := rfl
  have h0 : "".length = 0 := rfl
  omega

/-- The outcomes of `toDottedDec`: a non-empty mask and no error when `Atoi`
reads a number from 0 to 32, and otherwise an error and the empty mask.  It
never panics. -/
theorem toDottedDec_cases (cidr : String) :
    (∃ n : Nat, n ≤ 32 ∧ strconv.Atoi cidr = .ok (n : Int) ∧
      ∃ mask, mask ≠ "" ∧ toDottedDec cidr = .ret (mask, none)) ∨
    ((∀ n : Int, strconv.Atoi cidr = .ok n → n < 0 ∨ 32 < n) ∧
      ∃ err, toDottedDec cidr = .ret ("", some err)) := by
  cases hA : strconv.Atoi cidr with
  | error e =>
    right
    refine ⟨fun n hn => (nomatch hn), e, ?_⟩
    unfold toDottedDec
    rw [hA]
  | ok n =>
    by_cases hr : n > 32 ∨ n < 0
    · right
      refine ⟨fun k hk => ?_, .Errorf ("Not a valid network mask: " ++ cidr), ?_⟩
      · cases hk; omega
      · unfold toDottedDec
        rw [hA]
        dsimp only
        rw [if_pos hr]
    · left
      have h0 : 0 ≤ n := by omega
      obtain ⟨k, rfl⟩ := Int.eq_ofNat_of_zero_le h0
      have hk : k ≤ 32 := by omega
      exact ⟨k, hk, rfl, _, dottedQuad_ne_empty _ _ _ _, toDottedDec_of_Atoi cidr k hk hA⟩

/-- C7 (as amended): when the selected IPv4 string is `addr/p` or
`addr/p/...`, where `p` is the text between its first `'/'` and its next
`'/'` or its end, and `p` is no integer from 0 to 32 that `Atoi` can read,
`New` returns no record and the very error that `toDottedDec` gives for
`p`. -/
theorem New_returns_mask_error (v6 : net.IPv6Text) (iface : net.Interface)
    (addrs : List String) (addr p rest : String) (hA : iface.Addrs = .ok addrs)
    (h4 : (extractAddrs addrs).1 = addr ++ "/" ++ p ++ rest)
    (ha : '/' ∉ addr.data) (hp : '/' ∉ p.data)
    (hrest : rest = "" ∨ ∃ t : String, rest = "/" ++ t)
    (hbad : ∀ n : Int, strconv.Atoi p = .ok n → n < 0 ∨ 32 < n) :
    ∃ err, toDottedDec p = .ret ("", some err) ∧ New v6 iface = .ret (none, some err) := by
  have herr : ∃ err, toDottedDec p = .ret ("", some err) := by
    rcases toDottedDec_cases p with ⟨n, hn, hAt, _⟩ | ⟨_, h⟩
    · rcases hbad _ hAt with h | h <;> omega
    · exact h
  obtain ⟨err, herr⟩ := herr
  refine ⟨err, herr, ?_⟩
  have hsplit : ∃ more, strings.Split (addr ++ "/" ++ p ++ rest) "/" = addr :: p :: more := by
    have h1 : addr ++ "/" ++ p ++ rest = String.mk (addr.data ++ '/' :: (p.data ++ rest.data)) := by
      apply String.ext
      simp [String.data_append]
    rw [h1, Split_cut _ _ ha]
    rcases hrest with h | ⟨t, h⟩
    · refine ⟨[], ?_⟩
      rw [h, show ("" : String).data = [] from rfl, List.append_nil, Split_no_slash _ hp]
    · refine ⟨strings.Split (String.mk t.data) "/", ?_⟩
      have h2 : rest.data = '/' :: t.data := by
        rw [h]
        simp [String.data_append]
      rw [h2, Split_cut _ _ hp]
  obtain ⟨more, hsplit⟩ := hsplit
  have hne : ¬ (addr ++ "/" ++ p ++ rest).utf8ByteSize = 0 := by
    intro h
    have := congrArg String.length ((utf8ByteSize_eq_zero _).1 h)
    simp only [String.length_append] at this
    have h1 : "/".length = 1 := rfl
    have h0 : "".length = 0 := rfl
    omega
  unfold New
  rw [hA]
  dsimp only
  rw [h4, if_neg hne, hsplit]
  simp only [List.getElem?_cons_zero, List.getElem?_cons_succ, herr]

theorem New_returns_mask_error_witness :
    (∃ err, toDottedDec "33" = .ret ("", some err) ∧
      New ⟨fun _ => none, fun _ => ""⟩ ⟨"eth0", [], 1500, .ok ["10.0.0.5/33", "fe80::1/64"]⟩ =
        .ret (none, some err)) ∧
    (∃ err, toDottedDec "abc" = .ret ("", some err) ∧
      New ⟨fun _ => none, fun _ => ""⟩ ⟨"eth0", [], 1500, .ok ["10.0.0.5/abc"]⟩ =
        .ret (none, some err)) ∧
    (∃ err, toDottedDec "abc" = .ret ("", some err) ∧
      New ⟨fun _ => none, fun _ => ""⟩ ⟨"eth0", [], 1500, .ok ["10.0.0.5/abc/24"]⟩ =
        .ret (none, some err)) :=
  ⟨New_returns_mask_error _ _ ["10.0.0.5/33", "fe80::1/64"] "10.0.0.5" "33" "" rfl (by decide)
      (by decide) (by decide) (Or.inl rfl)
      (fun n h => by
        rw [show strconv.Atoi "33" = .ok 33 from rfl] at h
        cases h; decide),
    New_returns_mask_error _ _ ["10.0.0.5/abc"] "10.0.0.5" "abc" "" rfl (by decide)
      (by decide) (by decide) (Or.inl rfl)
      (fun n h => by
        rw [show strconv.Atoi "abc" = .error (.NumError "Atoi" "abc" .ErrSyntax) from rfl] at h
        cases h),
    New_returns_mask_error _ _ ["10.0.0.5/abc/24"] "10.0.0.5" "abc" "/24" rfl (by decide)
      (by decide) (by decide) (Or.inr ⟨"24", by decide⟩)
      (fun n h => by
        rw [show strconv.Atoi "abc" = .error (.NumError "Atoi" "abc" .ErrSyntax) from rfl] at h
        cases h)⟩

/-- C7 (the claim as stated fails): the selected string `10.0.0.5/24/abc` is
`addr/p` with `p = 24/abc`, which is no integer that `Atoi` can read, and
`toDottedDec` gives a syntax error for this `p`; but `New` hands
`toDottedDec` the piece `24`, which it accepts, and returns the error of
`net.ParseCIDR`, not an error of `toDottedDec`. -/
theorem New_mask_error_not_for_every_p :
    (extractAddrs ["10.0.0.5/24/abc"]).1 = "10.0.0.5" ++ "/" ++ "24/abc" ∧
    (∀ n : Int, strconv.Atoi "24/abc" = .ok n → n < 0 ∨ 32 < n) ∧
    toDottedDec "24/abc" = .ret ("", some (.NumError "Atoi" "24/abc" .ErrSyntax)) ∧
    toDottedDec "24" = .ret ("255.255.255.0", none) ∧
    (∀ v6 : net.IPv6Text,
      New v6 ⟨"eth0", [], 1500, .ok ["10.0.0.5/24/abc"]⟩ =
        .ret (none, some (.ParseError "CIDR address" "10.0.0.5/24/abc"))) ∧
    (∀ v6 : net.IPv6Text,
      ¬ ∃ err, toDottedDec "24/abc" = .ret ("", some err) ∧
        New v6 ⟨"eth0", [], 1500, .ok ["10.0.0.5/24/abc"]⟩ = .ret (none, some err)) := by
  have hA : strconv.Atoi "24/abc" = .error (.NumError "Atoi" "24/abc" .ErrSyntax) := rfl
  have hT : toDottedDec "24/abc" = .ret ("", some (.NumError "Atoi" "24/abc" .ErrSyntax)) := rfl
  have hN : ∀ v6 : net.IPv6Text,
      New v6 ⟨"eth0", [], 1500, .ok ["10.0.0.5/24/abc"]⟩ =
        .ret (none, some (.ParseError "CIDR address" "10.0.0.5/24/abc")) := fun _ => rfl
  refine ⟨by decide, fun n h => ?_, hT, by decide, hN, fun v6 => ?_⟩
  · rw [hA] at h
    cases h
  · rintro ⟨err, h1, h2⟩
    rw [hT] at h1
    rw [hN v6] at h2
    cases h1
    cases h2

theorem append_slash_ne_empty (a b : String) : a ++ "/" ++ b ≠ "" := by
  intro h
  have := congrArg String.length h
  simp only [String.length_append] at this
  have h1 : "/".length = 1 := rfl
  have h0 : "".length = 0 := rfl
  omega

/-- The text of a network is never empty. -/
theorem IPNet_String_ne_empty (v6 : net.IPv6Text) (n : net.IPNet) :
    net.IPNet.String v6 n ≠ "" := by
  unfold net.IPNet.String
  split
  · decide
  · split
    · exact append_slash_ne_empty _ _
    · exact append_slash_ne_empty _ _

/-- A text that `ParseCIDR` accepts has a non-empty part before its first
`'/'`. -/
theorem ParseCIDR_ok (v6 : net.IPv6Text) (s : String) (ipnet : net.IPNet)
    (h : net.ParseCIDR v6 s = .ok ipnet) :
    ∃ a r, s.data = a ++ '/' :: r ∧ '/' ∉ a ∧ a ≠ [] := by
  unfold net.ParseCIDR at h
  split at h
  · cases h
  · rename_i addr mask hcut
    split at h
    · cases h
    · rename_i ipAddr hparse
      obtain ⟨h1, h2⟩ := cutAt_spec '/' s.data addr mask hcut
      refine ⟨addr, mask, h1, h2, ?_⟩
      rintro rfl
      simp [net.ParseAddr, net.parseAddrScan] at hparse

/-- C8: in every record that `New` returns without error, the three IPv4
fields are all empty or all non-empty. -/
theorem New_ipv4_fields_together (v6 : net.IPv6Text) (iface : net.Interface) (r : Interface)
    (h : New v6 iface = .ret (some r, none)) :
    (r.IPv4Addr ≠ "" ↔ r.IPv4Mask ≠ "") ∧ (r.IPv4Addr ≠ "" ↔ r.IPv4Network ≠ "") := by
  unfold New at h
  split at h
  · cases h
  · rename_i addrs hA
    dsimp only at h
    split at h
    · cases h
      simp
    · split at h
      · cases h
      · rename_i ipv4addr h0
        split at h
        · cases h
        · rename_i ipv4Cidr h1
          split at h
          · cases h
          · cases h
          · rename_i ipv4Mask hmask
            split at h
            · cases h
            · rename_i ipnet hcidr
              cases h
              obtain ⟨a, t, hd, ha, hne⟩ := ParseCIDR_ok v6 _ ipnet hcidr
              have hs : (extractAddrs addrs).1 = String.mk (a ++ '/' :: t) := String.ext hd
              rw [hs, Split_cut a t ha] at h0
              simp only [List.getElem?_cons_zero, Option.some.injEq] at h0
              have hmne : ipv4Mask ≠ "" := by
                rcases toDottedDec_cases ipv4Cidr with ⟨_, _, _, m, hm, hret⟩ | ⟨_, e, hret⟩
                · rw [hret] at hmask
                  cases hmask
                  exact hm
                · rw [hret] at hmask
                  cases hmask
              have hane : ipv4addr ≠ "" := by
                rw [← h0]
                intro he
                exact hne (congrArg String.data he)
              have hnne := IPNet_String_ne_empty v6 ipnet
              exact ⟨⟨fun _ => hmne, fun _ => hane⟩, ⟨fun _ => hnne, fun _ => hane⟩⟩

theorem isDigit_ne_marks (c : Char) (h : strconv.isDigit c = true) :
    c ≠ '.' ∧ c ≠ ':' ∧ c ≠ '%' ∧ c ≠ '/' := by
  simp only [strconv.isDigit, Bool.and_eq_true, decide_eq_true_eq] at h
  refine ⟨?_, ?_, ?_, ?_⟩ <;> (rintro rfl; revert h; decide)

theorem ofNat_digit (d : Nat) (h : d < 10) :
    strconv.isDigit (Char.ofNat (48 + d)) = true ∧ strconv.digitVal (Char.ofNat (48 + d)) = d := by
  interval_cases d <;> decide

set_option maxRecDepth 100000 in
/-- Below 256 `appendDecimal` writes the decimal literal. -/
theorem appendDecimal_eq_repr (x : Nat) (h : x ≤ 255) :
    net.appendDecimal x = (Nat.repr x).data := by
  interval_cases x <;> rfl

theorem parseIPv4Loop_digit (ch : Char) (t : List Char) (prev : Option Char)
    (val digLen : Nat) (fields : List Nat) (hd : strconv.isDigit ch = true)
    (hz : ¬ (digLen = 1 ∧ val = 0)) (hv : val * 10 + strconv.digitVal ch ≤ 255) :
    net.parseIPv4Loop (ch :: t) prev val digLen fields =
      net.parseIPv4Loop t (some ch) (val * 10 + strconv.digitVal ch) (digLen + 1) fields := by
  rw [net.parseIPv4Loop, if_pos hd, if_neg hz]
  dsimp only
  rw [if_neg (by omega)]

theorem parseIPv4Loop_dot (p x : Char) (t : List Char) (val digLen : Nat) (fields : List Nat)
    (hp : strconv.isDigit p = true) (hf : fields.length < 3) :
    net.parseIPv4Loop ('.' :: x :: t) (some p) val digLen fields =
      net.parseIPv4Loop (x :: t) (some '.') 0 0 (fields ++ [val]) := by
  have hne := (isDigit_ne_marks p hp).1
  rw [net.parseIPv4Loop, if_neg (by decide), if_pos rfl, if_neg, if_neg (by omega)]
  simp [hne]

/-- The loop of `parseIPv4Fields` over the literal of an octet: it ends with
the octet in `val` and a digit as the previous byte. -/
theorem parseIPv4Loop_octet (a : Nat) (ha : a ≤ 255) :
    ∃ p k, strconv.isDigit p = true ∧ ∀ t prev fields,
      net.parseIPv4Loop ((Nat.repr a).data ++ t) prev 0 0 fields =
        net.parseIPv4Loop t (some p) a k fields := by
  rw [← appendDecimal_eq_repr a ha]
  have d0 := ofNat_digit (a % 10) (by omega)
  have d1 := ofNat_digit (a / 10 % 10) (by omega)
  have d2 := ofNat_digit (a / 100) (by omega)
  refine ⟨Char.ofNat (48 + a % 10), if a ≥ 100 then 3 else if a ≥ 10 then 2 else 1, d0.1,
    fun t prev fields => ?_⟩
  by_cases h100 : a ≥ 100
  · have h10 : a ≥ 10 := by omega
    simp only [net.appendDecimal, h100, h10, if_true, List.cons_append, List.nil_append]
    rw [parseIPv4Loop_digit _ _ _ _ _ _ d2.1 (by omega) (by rw [d2.2]; omega),
      parseIPv4Loop_digit _ _ _ _ _ _ d1.1 (by rw [d2.2]; omega) (by rw [d2.2, d1.2]; omega),
      parseIPv4Loop_digit _ _ _ _ _ _ d0.1 (by omega) (by rw [d2.2, d1.2, d0.2]; omega)]
    rw [d2.2, d1.2, d0.2]
    congr 1
    omega
  · by_cases h10 : a ≥ 10
    · simp only [net.appendDecimal, h100, h10, if_true, if_false, List.cons_append,
        List.nil_append]
      rw [parseIPv4Loop_digit _ _ _ _ _ _ d1.1 (by omega) (by rw [d1.2]; omega),
        parseIPv4Loop_digit _ _ _ _ _ _ d0.1 (by rw [d1.2]; omega) (by rw [d1.2, d0.2]; omega)]
      rw [d1.2, d0.2]
      congr 1
      omega
    · simp only [net.appendDecimal, h100, h10, if_false, List.cons_append, List.nil_append]
      rw [parseIPv4Loop_digit _ _ _ _ _ _ d0.1 (by omega) (by rw [d0.2]; omega)]
      rw [d0.2]
      congr 1
      omega

theorem dottedQuad_data (a b c d : Nat) :
    (dottedQuad a b c d).data =
      (Nat.repr a).data ++ '.' :: ((Nat.repr b).data ++ '.' :: ((Nat.repr c).data ++
        '.' :: (Nat.repr d).data)) := by
  simp [dottedQuad, String.data_append]

/-- The IPv4 reader gives back the octets of a dotted quad. -/
theorem parseIPv4_dottedQuad (a b c d : Nat) (ha : a ≤ 255) (hb : b ≤ 255) (hc : c ≤ 255)
    (hd : d ≤ 255) : net.parseIPv4 (dottedQuad a b c d).data = some [a, b, c, d] := by
  obtain ⟨pa, ka, hpa, hA⟩ := parseIPv4Loop_octet a ha
  obtain ⟨pb, kb, hpb, hB⟩ := parseIPv4Loop_octet b hb
  obtain ⟨pc, kc, hpc, hC⟩ := parseIPv4Loop_octet c hc
  obtain ⟨pd, kd, hpd, hD⟩ := parseIPv4Loop_octet d hd
  obtain ⟨xb, tb, hxb⟩ := List.exists_cons_of_ne_nil (repr_digits b).1
  obtain ⟨xc, tc, hxc⟩ := List.exists_cons_of_ne_nil (repr_digits c).1
  obtain ⟨xd, td, hxd⟩ := List.exists_cons_of_ne_nil (repr_digits d).1
  have hD0 := hD [] (some '.') [a, b, c]
  rw [List.append_nil] at hD0
  rw [net.parseIPv4, dottedQuad_data, hA]
  rw [hxb, List.cons_append, parseIPv4Loop_dot _ _ _ _ _ _ hpa (by simp), ← List.cons_append,
    ← hxb, hB]
  rw [hxc, List.cons_append, parseIPv4Loop_dot _ _ _ _ _ _ hpb (by simp), ← List.cons_append,
    ← hxc, hC]
  rw [hxd, parseIPv4Loop_dot _ _ _ _ _ _ hpc (by simp), ← hxd]
  simp only [List.nil_append, List.cons_append]
  rw [hD0]
  simp [net.parseIPv4Loop]

theorem parseAddrScan_digits (v6 : net.IPv6Text) (s l rest : List Char)
    (h : ∀ ch ∈ l, strconv.isDigit ch = true) :
    net.parseAddrScan v6 s (l ++ '.' :: rest) = (net.parseIPv4 s).map net.Addr.v4 := by
  induction l with
  | nil => simp [net.parseAddrScan]
  | cons x t ih =>
    obtain ⟨h1, h2, h3, _⟩ := isDigit_ne_marks x (h x (List.mem_cons_self x t))
    rw [List.cons_append, net.parseAddrScan, if_neg h1, if_neg h2, if_neg h3]
    exact ih fun ch hch => h ch (List.mem_cons_of_mem x hch)

theorem ParseAddr_dottedQuad (v6 : net.IPv6Text) (a b c d : Nat) (ha : a ≤ 255) (hb : b ≤ 255)
    (hc : c ≤ 255) (hd : d ≤ 255) :
    net.ParseAddr v6 (dottedQuad a b c d).data = some (.v4 [a, b, c, d]) := by
  have h := parseIPv4_dottedQuad a b c d ha hb hc hd
  unfold net.ParseAddr
  conv_lhs => arg 3; rw [dottedQuad_data]
  rw [parseAddrScan_digits v6 _ _ _ (repr_digits a).2.1, h]
  rfl

theorem dottedQuad_no_slash (a b c d : Nat) : '/' ∉ (dottedQuad a b c d).data := by
  rw [dottedQuad_data]
  intro h
  have hr : ∀ m : Nat, '/' ∉ (Nat.repr m).data := fun m hm =>
    (isDigit_ne_marks _ ((repr_digits m).2.1 _ hm)).2.2.2 rfl
  simp only [List.mem_append, List.mem_cons] at h
  rcases h with h | h | h | h | h | h | h
  · exact hr a h
  · exact absurd h (by decide)
  · exact hr b h
  · exact absurd h (by decide)
  · exact hr c h
  · exact absurd h (by decide)
  · exact hr d h

theorem repr_no_slash (m : Nat) : '/' ∉ (Nat.repr m).data := fun hm =>
  (isDigit_ne_marks _ ((repr_digits m).2.1 _ hm)).2.2.2 rfl

set_option maxRecDepth 100000 in
/-- Go `Atoi` reads the literal of a number up to 32. -/
theorem Atoi_repr_small (n : Nat) (h : n ≤ 32) : strconv.Atoi (Nat.repr n) = .ok (n : Int) := by
  interval_cases n <;> rfl

set_option maxRecDepth 100000 in
/-- What `dtoi`, `CIDRMask` and `simpleMaskLength` give for a length up to
32. -/
theorem mask_of_length (n : Nat) (h : n ≤ 32) :
    net.dtoi (Nat.repr n).data = (n, (Nat.repr n).data.length, true) ∧
    net.CIDRMask n 32 = [maskOctet n 0, maskOctet n 1, maskOctet n 2, maskOctet n 3] ∧
    net.simpleMaskLength [maskOctet n 0, maskOctet n 1, maskOctet n 2, maskOctet n 3] = some n := by
  interval_cases n <;> decide

/-- Go `ParseCIDR` on `a.b.c.d/n`: the address and-ed with the mask of length
`n`, and that mask. -/
theorem ParseCIDR_dottedQuad (v6 : net.IPv6Text) (a b c d n : Nat) (ha : a ≤ 255)
    (hb : b ≤ 255) (hc : c ≤ 255) (hd : d ≤ 255) (hn : n ≤ 32) :
    net.ParseCIDR v6 (dottedQuad a b c d ++ "/" ++ Nat.repr n) =
      .ok { IP := [a &&& maskOctet n 0, b &&& maskOctet n 1, c &&& maskOctet n 2,
                   d &&& maskOctet n 3],
            Mask := [maskOctet n 0, maskOctet n 1, maskOctet n 2, maskOctet n 3] } := by
  obtain ⟨h1, h2, _⟩ := mask_of_length n hn
  have hdata : (dottedQuad a b c d ++ "/" ++ Nat.repr n).data =
      (dottedQuad a b c d).data ++ '/' :: (Nat.repr n).data := by
    simp [String.data_append]
  unfold net.ParseCIDR
  rw [hdata, cutAt_append '/' _ _ (dottedQuad_no_slash a b c d)]
  dsimp only
  rw [ParseAddr_dottedQuad v6 a b c d ha hb hc hd]
  dsimp only
  rw [if_neg (by decide), h1]
  dsimp only
  rw [if_neg (by simp; omega), h2]
  simp [net.IP.Mask, net.v4InV6Prefix]

/-- The text of an IPv4 network whose mask has length `n`. -/
theorem IPNet_String_v4 (v6 : net.IPv6Text) (w x y z n : Nat) (hw : w ≤ 255) (hx : x ≤ 255)
    (hy : y ≤ 255) (hz : z ≤ 255) (hn : n ≤ 32) :
    net.IPNet.String v6
        { IP := [w, x, y, z],
          Mask := [maskOctet n 0, maskOctet n 1, maskOctet n 2, maskOctet n 3] } =
      dottedQuad w x y z ++ "/" ++ Nat.repr n := by
  obtain ⟨_, _, h3⟩ := mask_of_length n hn
  have hip : net.IP.String v6 [w, x, y, z] = dottedQuad w x y z := by
    apply String.ext
    simp [net.IP.String, net.IP.To4, dottedQuad_data, appendDecimal_eq_repr, hw, hx, hy, hz]
  simp [net.IPNet.String, net.networkNumberAndMask, net.IP.To4, h3, hip]

/-- C3: when the selected IPv4 string is `a.b.c.d/n` with octets up to 255 and
`n` up to 32, `New` returns without error a record with `IPv4Addr` the text
before the `'/'`, `IPv4Mask` the dotted mask that `toDottedDec` gives for `n`,
`IPv4Network` the address and-ed with that mask followed by `/n`, the MTU, the
text of the hardware address and the name of the interface, and as `IPv6Addr`
the selected IPv6 string. -/
theorem New_with_ipv4 (v6 : net.IPv6Text) (iface : net.Interface) (addrs : List String)
    (a b c d n : Nat) (hA : iface.Addrs = .ok addrs)
    (ha : a ≤ 255) (hb : b ≤ 255) (hc : c ≤ 255) (hd : d ≤ 255) (hn : n ≤ 32)
    (h4 : (extractAddrs addrs).1 = dottedQuad a b c d ++ "/" ++ Nat.repr n) :
    toDottedDec (Nat.repr n) =
      .ret (dottedQuad (maskOctet n 0) (maskOctet n 1) (maskOctet n 2) (maskOctet n 3), none) ∧
    New v6 iface =
      .ret (some { HardwareAddr := net.HardwareAddr.String iface.HardwareAddr,
                   IPv4Addr := dottedQuad a b c d,
                   IPv4Mask :=
                     dottedQuad (maskOctet n 0) (maskOctet n 1) (maskOctet n 2) (maskOctet n 3),
                   IPv4Network :=
                     dottedQuad (a &&& maskOctet n 0) (b &&& maskOctet n 1) (c &&& maskOctet n 2)
                       (d &&& maskOctet n 3) ++ "/" ++ Nat.repr n,
                   IPv6Addr := (extractAddrs addrs).2,
                   MTU := iface.MTU,
                   Name := iface.Name }, none) := by
  have hmask := toDottedDec_of_Atoi (Nat.repr n) n hn (Atoi_repr_small n hn)
  refine ⟨hmask, ?_⟩
  have hsplit : strings.Split (dottedQuad a b c d ++ "/" ++ Nat.repr n) "/" =
      [dottedQuad a b c d, Nat.repr n] := by
    have h1 : dottedQuad a b c d ++ "/" ++ Nat.repr n =
        String.mk ((dottedQuad a b c d).data ++ '/' :: (Nat.repr n).data) := by
      apply String.ext
      simp [String.data_append]
    rw [h1, Split_cut _ _ (dottedQuad_no_slash a b c d), Split_no_slash _ (repr_no_slash n)]
  have hne : ¬ (dottedQuad a b c d ++ "/" ++ Nat.repr n).utf8ByteSize = 0 := fun h =>
    append_slash_ne_empty _ _ ((utf8ByteSize_eq_zero _).1 h)
  have hcidr := ParseCIDR_dottedQuad v6 a b c d n ha hb hc hd hn
  have hnet := IPNet_String_v4 v6 (a &&& maskOctet n 0) (b &&& maskOctet n 1)
    (c &&& maskOctet n 2) (d &&& maskOctet n 3) n
    (le_trans Nat.and_le_left ha) (le_trans Nat.and_le_left hb)
    (le_trans Nat.and_le_left hc) (le_trans Nat.and_le_left hd) hn
  unfold New
  rw [hA]
  dsimp only
  rw [h4, if_neg hne, hsplit]
  simp only [List.getElem?_cons_zero, List.getElem?_cons_succ, hmask, hcidr, hnet]

theorem New_with_ipv4_witness :
    toDottedDec "24" = .ret ("255.255.255.0", none) ∧
    New ⟨fun _ => none, fun _ => ""⟩
        ⟨"eth0", [0xaa, 0xbb, 0xcc, 0xdd, 0xee, 0xff], 1500, .ok ["10.0.0.5/24"]⟩ =
      .ret (some { HardwareAddr := "aa:bb:cc:dd:ee:ff", IPv4Addr := "10.0.0.5",
                   IPv4Mask := "255.255.255.0", IPv4Network := "10.0.0.0/24", IPv6Addr := "",
                   MTU := 1500, Name := "eth0" }, none) :=
  New_with_ipv4 _ _ ["10.0.0.5/24"] 10 0 0 5 24 rfl (by decide) (by decide) (by decide)
    (by decide) (by decide) (by decide)

theorem New_ipv4_fields_together_witness :
    New ⟨fun _ => none, fun _ => ""⟩ ⟨"eth0", [], 1500, .ok ["10.0.0.5/24", "fe80::1/64"]⟩ =
      .ret (some { HardwareAddr := "", IPv4Addr := "10.0.0.5", IPv4Mask := "255.255.255.0",
                   IPv4Network := "10.0.0.0/24", IPv6Addr := "fe80::1/64", MTU := 1500,
                   Name := "eth0" }, none) ∧
    (("10.0.0.5" ≠ "" ↔ "255.255.255.0" ≠ "") ∧ ("10.0.0.5" ≠ "" ↔ "10.0.0.0/24" ≠ "")) :=
  ⟨rfl, New_ipv4_fields_together ⟨fun _ => none, fun _ => ""⟩
    ⟨"eth0", [], 1500, .ok ["10.0.0.5/24", "fe80::1/64"]⟩ _ rfl⟩

/-! ## Later properties of `extractAddrs` and `New` -/

/-- C14: when `iface.Addrs()` fails with the error `e`, `New` returns that
same `e` and no record, whatever the other fields of the interface are. -/
theorem New_returns_Addrs_error (v6 : net.IPv6Text) (iface : net.Interface) (e : GoError)
    (h : iface.Addrs = .error e) : New v6 iface = .ret (none, some e) := by
  unfold New
  rw [h]

theorem New_returns_Addrs_error_witness :
    New ⟨fun _ => none, fun _ => ""⟩
      ⟨"eth0", [0xaa, 0xbb, 0xcc, 0xdd, 0xee, 0xff], 1500,
        .error (.Syscall "route ip+net: no such network interface")⟩ =
      .ret (none, some (.Syscall "route ip+net: no such network interface")) :=
  New_returns_Addrs_error _ _ _ rfl

theorem lastMatch_snoc (p : String → Bool) (l : List String) (a init : String) :
    lastMatch p (l ++ [a]) init = if p a then a else lastMatch p l init := by
  rw [lastMatch_append]
  rfl

/-- C15: the two tests of `extractAddrs` are independent.  A last entry that
contains both `':'` and `'.'` is returned as ipv4 and as ipv6; an entry with
both anywhere in the list is the ipv4 result when no later entry contains
`'.'`, and the ipv6 result when no later entry contains `':'`. -/
theorem extractAddrs_both_families :
    (∀ (l : List String) (x : String),
      strings.Contains x ":" = true → strings.Contains x "." = true →
      extractAddrs (l ++ [x]) = (x, x)) ∧
    (∀ (pre post : List String) (x : String),
      strings.Contains x ":" = true → strings.Contains x "." = true →
      ((∀ a ∈ post, strings.Contains a "." = false) →
        (extractAddrs (pre ++ x :: post)).1 = x) ∧
      ((∀ a ∈ post, strings.Contains a ":" = false) →
        (extractAddrs (pre ++ x :: post)).2 = x)) := by
  refine ⟨fun l x h6 h4 => ?_, fun pre post x h6 h4 => ⟨fun hp => ?_, fun hp => ?_⟩⟩
  · rw [extractAddrs_eq, lastMatch_snoc, lastMatch_snoc]
    simp only [h4, h6, if_true]
  · rw [extractAddrs_eq]
    show lastMatch (fun a => strings.Contains a ".") (pre ++ x :: post) "" = x
    rw [lastMatch_append]
    simp only [lastMatch, h4, if_true]
    exact lastMatch_none _ post x hp
  · rw [extractAddrs_eq]
    show lastMatch (fun a => strings.Contains a ":") (pre ++ x :: post) "" = x
    rw [lastMatch_append]
    simp only [lastMatch, h6, if_true]
    exact lastMatch_none _ post x hp

theorem extractAddrs_both_families_witness :
    extractAddrs ["10.0.0.5/24", "fe80::1/64", "::ffff:10.0.0.1/96"] =
      ("::ffff:10.0.0.1/96", "::ffff:10.0.0.1/96") :=
  extractAddrs_both_families.1 ["10.0.0.5/24", "fe80::1/64"] "::ffff:10.0.0.1/96"
    (by decide) (by decide)

theorem lastMatch_init (p : String → Bool) (hp : p "" = false) (l : List String)
    (init : String) :
    lastMatch p l init = if lastMatch p l "" ≠ "" then lastMatch p l "" else init := by
  induction l using List.reverseRecOn with
  | nil => simp [lastMatch]
  | append_singleton l a ih =>
    rw [lastMatch_snoc, lastMatch_snoc]
    cases h : p a
    · simpa using ih
    · have hne : a ≠ "" := fun e => by rw [e, hp] at h; cases h
      simp [hne]

theorem lastMatch_mem (p : String → Bool) (l : List String) :
    lastMatch p l "" = "" ∨ (lastMatch p l "" ∈ l ∧ p (lastMatch p l "") = true) := by
  rcases lastMatch_split p l "" with ⟨h, _⟩ | ⟨pre, post, h1, h2, _⟩
  · exact Or.inl h
  · right
    refine ⟨?_, h2⟩
    generalize lastMatch p l "" = r at h1
    rw [h1]
    exact List.mem_append_right pre (List.mem_cons_self r post)

/-- C16: over a concatenation the right side wins.  Each result for
`xs ++ ys` is the result for `ys` when that is not empty and the result for
`xs` otherwise; each result is empty or an entry of the list; an ipv4 result
that is not empty contains `'.'`, an ipv6 result that is not empty `':'`. -/
theorem extractAddrs_append :
    (∀ xs ys : List String,
      (extractAddrs (xs ++ ys)).1 =
          (if (extractAddrs ys).1 ≠ "" then (extractAddrs ys).1 else (extractAddrs xs).1) ∧
      (extractAddrs (xs ++ ys)).2 =
          (if (extractAddrs ys).2 ≠ "" then (extractAddrs ys).2 else (extractAddrs xs).2)) ∧
    (∀ l : List String,
      ((extractAddrs l).1 = "" ∨ (extractAddrs l).1 ∈ l) ∧
      ((extractAddrs l).2 = "" ∨ (extractAddrs l).2 ∈ l) ∧
      ((extractAddrs l).1 ≠ "" → strings.Contains (extractAddrs l).1 "." = true) ∧
      ((extractAddrs l).2 ≠ "" → strings.Contains (extractAddrs l).2 ":" = true)) := by
  have h4 : (fun a => strings.Contains a ".") "" = false := by decide
  have h6 : (fun a => strings.Contains a ":") "" = false := by decide
  refine ⟨fun xs ys => ?_, fun l => ?_⟩
  · simp only [extractAddrs_eq, lastMatch_append]
    exact ⟨lastMatch_init _ h4 ys _, lastMatch_init _ h6 ys _⟩
  · simp only [extractAddrs_eq]
    have m4 := lastMatch_mem (fun a => strings.Contains a ".") l
    have m6 := lastMatch_mem (fun a => strings.Contains a ":") l
    refine ⟨m4.imp_right And.left, m6.imp_right And.left, fun hne => ?_, fun hne => ?_⟩
    · rcases m4 with h | h
      · exact absurd h hne
      · exact h.2
    · rcases m6 with h | h
      · exact absurd h hne
      · exact h.2

/-! ## What `toDottedDec` rejects -/

theorem atoiLoop_some (l : List Char) (acc v : Int) (h : strconv.atoiLoop l acc = some v) :
    ∀ c ∈ l, strconv.isDigit c = true := by
  induction l generalizing acc with
  | nil => intro c hc; cases hc
  | cons x t ih =>
    by_cases hx : strconv.isDigit x = true
    · rw [strconv.atoiLoop, if_pos hx] at h
      intro c hc
      rcases List.mem_cons.1 hc with rfl | hc
      · exact hx
      · exact ih _ h c hc
    · rw [strconv.atoiLoop, if_neg hx] at h
      cases h

theorem parseUintLoop_ok (l : List Char) (acc v : Nat)
    (h : strconv.parseUintLoop l acc = .ok v) : ∀ c ∈ l, strconv.isDigit c = true := by
  induction l generalizing acc with
  | nil => intro c hc; cases hc
  | cons x t ih =>
    by_cases hx : strconv.isDigit x = true
    · simp only [strconv.parseUintLoop, hx, Bool.not_true, Bool.false_eq_true, if_false] at h
      by_cases h1 : acc ≥ strconv.maxUint64 / 10 + 1
      · rw [if_pos h1] at h; cases h
      · rw [if_neg h1] at h
        by_cases h2 : (acc * 10 % 2 ^ 64 + strconv.digitVal x) % 2 ^ 64 < acc * 10 % 2 ^ 64 ∨
            (acc * 10 % 2 ^ 64 + strconv.digitVal x) % 2 ^ 64 > strconv.maxUint64
        · rw [if_pos h2] at h; cases h
        · rw [if_neg h2] at h
          intro c hc
          rcases List.mem_cons.1 hc with rfl | hc
          · exact hx
          · exact ih _ h c hc
    · simp only [strconv.parseUintLoop, hx, Bool.not_false, if_true] at h
      cases h

theorem Atoi_ok_finish (l : List Char) (c : Char) (t body : List Char) (n : Int)
    (hd : l = c :: t) (hb : body = if c = '-' ∨ c = '+' then t else c :: t)
    (hdig : isDigits body)
    (hn : n = if c = '-' then -(digitsValue body 0 : Int) else (digitsValue body 0 : Int)) :
    (isDigits l ∧ n = digitsValue l 0) ∨
    (∃ body, l = '+' :: body ∧ isDigits body ∧ n = digitsValue body 0) ∨
    (∃ body, l = '-' :: body ∧ isDigits body ∧ n = -(digitsValue body 0 : Int)) := by
  by_cases hm : c = '-'
  · rw [if_pos (Or.inl hm)] at hb
    rw [if_pos hm] at hn
    subst hb
    right; right
    exact ⟨body, by rw [hd, hm], hdig, hn⟩
  · rw [if_neg hm] at hn
    by_cases hp : c = '+'
    · rw [if_pos (Or.inr hp)] at hb
      subst hb
      right; left
      exact ⟨body, by rw [hd, hp], hdig, hn⟩
    · rw [if_neg (by simp [hm, hp])] at hb
      subst hb
      left
      rw [hd]
      exact ⟨hdig, hn⟩

/-- The texts `Atoi` reads: a non-empty sequence of digits, alone or after
one sign, with the value the digits denote. -/
theorem Atoi_ok (s : String) (n : Int) (h : strconv.Atoi s = .ok n) :
    (isDigits s.data ∧ n = digitsValue s.data 0) ∨
    (∃ body, s.data = '+' :: body ∧ isDigits body ∧ n = digitsValue body 0) ∨
    (∃ body, s.data = '-' :: body ∧ isDigits body ∧ n = -(digitsValue body 0 : Int)) := by
  unfold strconv.Atoi at h
  cases hd : s.data with
  | nil =>
    rw [hd] at h
    by_cases hf : 0 < s.utf8ByteSize ∧ s.utf8ByteSize < 19
    · rw [if_pos hf] at h; cases h
    · rw [if_neg hf] at h; cases h
  | cons c t =>
    rw [hd] at h
    by_cases hf : 0 < s.utf8ByteSize ∧ s.utf8ByteSize < 19
    · rw [if_pos hf] at h
      dsimp only at h
      generalize hb : (if (c == '-' || c == '+') = true then t else c :: t) = body at h
      by_cases hemp : body.isEmpty = true
      · rw [if_pos hemp] at h; cases h
      · rw [if_neg hemp] at h
        cases hl : strconv.atoiLoop body 0 with
        | none => rw [hl] at h; cases h
        | some v =>
          rw [hl] at h
          have hdig := atoiLoop_some _ 0 v hl
          have hval := atoiLoop_digits body 0 hdig
          simp only [Nat.cast_zero] at hval
          rw [hval] at hl
          have hv : v = (digitsValue body 0 : Nat) := (Option.some.inj hl).symm
          have hn : n = if (c == '-') = true then -v else v := (Except.ok.inj h).symm
          refine Atoi_ok_finish (c :: t) c t body n rfl ?_ ⟨by simpa using hemp, hdig⟩ ?_
          · rw [← hb]; simp
          · rw [hn, hv]; simp
    · rw [if_neg hf] at h
      cases hp : strconv.ParseInt (c :: t) with
      | error e => rw [hp] at h; cases h
      | ok v =>
        rw [hp] at h
        have hnv : n = v := (Except.ok.inj h).symm
        unfold strconv.ParseInt at hp
        dsimp only at hp
        generalize hb : (if (c == '+' || c == '-') = true then t else c :: t) = body at hp
        cases hu : strconv.ParseUint body with
        | error e => rw [hu] at hp; cases e <;> cases hp
        | ok un =>
          rw [hu] at hp
          dsimp only at hp
          unfold strconv.ParseUint at hu
          by_cases hemp : body.isEmpty = true
          · rw [if_pos hemp] at hu; cases hu
          · rw [if_neg hemp] at hu
            have hdig := parseUintLoop_ok _ 0 un hu
            have hval : un = digitsValue body 0 := by
              rcases parseUintLoop_digits _ 0 hdig with e | e
              · rw [e] at hu; cases hu
              · rw [e] at hu; exact (Except.ok.inj hu).symm
            by_cases c1 : (!(c == '-') && decide (un ≥ 2 ^ 63)) = true
            · rw [if_pos c1] at hp; cases hp
            · rw [if_neg c1] at hp
              by_cases c2 : ((c == '-') && decide (un > 2 ^ 63)) = true
              · rw [if_pos c2] at hp; cases hp
              · rw [if_neg c2] at hp
                have hn : v = if (c == '-') = true then -(un : Int) else (un : Int) :=
                  (Except.ok.inj hp).symm
                refine Atoi_ok_finish (c :: t) c t body n rfl ?_ ⟨by simpa using hemp, hdig⟩ ?_
                · rw [← hb]; simp [or_comm]
                · rw [hnv, hn, hval]; simp

/-- C13 (as amended): `toDottedDec` returns an error and the empty mask for
every text that is not a non-empty sequence of digits, unless the text is a
`'+'` before digits that denote a number up to 32 or a `'-'` before digits
that denote 0. -/
theorem toDottedDec_rejects (s : String) (h1 : ¬ isDigits s.data)
    (h2 : ∀ body, s.data = '+' :: body → isDigits body → 32 < digitsValue body 0)
    (h3 : ∀ body, s.data = '-' :: body → isDigits body → 0 < digitsValue body 0) :
    ∃ err, toDottedDec s = .ret ("", some err) := by
  rcases toDottedDec_cases s with ⟨n, hn, hA, _⟩ | ⟨_, h⟩
  · rcases Atoi_ok s n hA with ⟨hd, _⟩ | ⟨body, hs, hd, hv⟩ | ⟨body, hs, hd, hv⟩
    · exact absurd hd h1
    · have := h2 body hs hd
      omega
    · have := h3 body hs hd
      omega
  · exact h

theorem toDottedDec_rejects_witness :
    (∃ err, toDottedDec "" = .ret ("", some err)) ∧
    (∃ err, toDottedDec "abc" = .ret ("", some err)) ∧
    (∃ err, toDottedDec "2.4" = .ret ("", some err)) ∧
    (∃ err, toDottedDec " 24" = .ret ("", some err)) ∧
    (∃ err, toDottedDec "-5" = .ret ("", some err)) :=
  ⟨toDottedDec_rejects "" (fun h => h.1 rfl) (fun _ h => nomatch h) (fun _ h => nomatch h),
   toDottedDec_rejects "abc" (fun h => absurd (h.2 'a' (by decide)) (by decide))
     (fun _ h => nomatch h) (fun _ h => nomatch h),
   toDottedDec_rejects "2.4" (fun h => absurd (h.2 '.' (by decide)) (by decide))
     (fun _ h => nomatch h) (fun _ h => nomatch h),
   toDottedDec_rejects " 24" (fun h => absurd (h.2 ' ' (by decide)) (by decide))
     (fun _ h => nomatch h) (fun _ h => nomatch h),
   toDottedDec_rejects "-5" (fun h => absurd (h.2 '-' (by decide)) (by decide))
     (fun _ h => nomatch h)
     (fun body h _ => by
       have hb : body = ['5'] := by injection h with _ h; exact h.symm
       subst hb
       decide)⟩

/-- C13 (the claim as stated fails): `"+24"` and `"-0"` are no sequences of
digits, and `toDottedDec` returns a mask for them with no error. -/
theorem toDottedDec_accepts_signed :
    ¬ isDigits "+24".data ∧ toDottedDec "+24" = .ret ("255.255.255.0", none) ∧
    ¬ isDigits "-0".data ∧ toDottedDec "-0" = .ret ("0.0.0.0", none) :=
  ⟨fun h => absurd (h.2 '+' (by decide)) (by decide), by decide,
   fun h => absurd (h.2 '-' (by decide)) (by decide), by decide⟩

/-! ## `Interface.String` -/

theorem fmtInteger_eq (n : Int) : fmt.fmtInteger n = (decimalLiteral n).data := by
  cases n with
  | ofNat m =>
    have h : ¬ ((Int.ofNat m) < 0) := by simp
    simp [fmt.fmtInteger, decimalLiteral, h]
  | negSucc m =>
    have h : Int.negSucc m < 0 := Int.negSucc_lt_zero m
    simp [fmt.fmtInteger, decimalLiteral, h, String.data_append]

/-- The line in characters: what the columns of the statements hold. -/
theorem columns_data (w : Nat) (r : Interface) :
    (padRight r.Name w ++ "  " ++ otherFields r).data =
      fmt.pad true w r.Name.data ++ ' ' :: ' ' :: (fmt.pad true 15 r.IPv4Addr.data ++ ' ' :: ' ' ::
        (fmt.pad true 15 r.IPv4Mask.data ++ ' ' :: ' ' :: (fmt.pad true 18 r.IPv4Network.data ++
        ' ' :: ' ' :: (fmt.pad false 4 (fmt.fmtInteger r.MTU) ++ ' ' :: ' ' ::
        (fmt.pad false 17 r.HardwareAddr.data ++ ' ' :: ' ' ::
        (fmt.pad false 0 r.IPv6Addr.data ++ [])))))) := by
  have e : "  ".data = [' ', ' '] := rfl
  simp only [otherFields, padRight, padLeft, fmt.pad, fmtInteger_eq, String.data_append,
    String.length, e, if_true, Bool.false_eq_true, if_false, List.append_assoc, List.cons_append,
    List.nil_append, List.append_nil, Nat.zero_sub, List.replicate_zero]

set_option maxRecDepth 100000 in
/-- The line `Interface.String` returns, for every record and platform: the
name padded on the right to the width of its column, two spaces, and the six
other fields in their columns. -/
theorem Interface_String_eq (goos : String) (r : Interface) :
    r.String goos = some (padRight r.Name (nameWidth goos) ++ "  " ++ otherFields r) := by
  have h10 : fmt.doPrintf "%-10s  %-15s  %-15s  %-18s  %4d  %17s  %s".data .text
      [.str r.Name, .str r.IPv4Addr, .str r.IPv4Mask, .str r.IPv4Network, .int r.MTU,
        .str r.HardwareAddr, .str r.IPv6Addr] =
      some (padRight r.Name 10 ++ "  " ++ otherFields r).data := by
    rw [columns_data]; rfl
  have h35 : fmt.doPrintf "%-35s  %-15s  %-15s  %-18s  %4d  %17s  %s".data .text
      [.str r.Name, .str r.IPv4Addr, .str r.IPv4Mask, .str r.IPv4Network, .int r.MTU,
        .str r.HardwareAddr, .str r.IPv6Addr] =
      some (padRight r.Name 35 ++ "  " ++ otherFields r).data := by
    rw [columns_data]; rfl
  unfold Interface.String fmt.Sprintf nameWidth
  by_cases hg : goos = "windows"
  · simp only [hg, if_true, h35, Option.map_some']
  · simp only [hg, if_false, h10, Option.map_some']

theorem padRight_length (s : String) (w : Nat) : (padRight s w).length = max w s.length := by
  simp only [padRight, String.length, List.length_append, List.length_replicate]
  omega

theorem padLeft_length (s : String) (w : Nat) : (padLeft s w).length = max w s.length := by
  simp only [padLeft, String.length, List.length_append, List.length_replicate]
  omega

theorem two_spaces_length : "  ".length = 2 := rfl

/-- C11 (as amended): the line starts with the name padded on the right with
spaces up to the width `W` of its column (10, and 35 when `GOOS` is
`"windows"`), then the two-space separator and the other fields; the name
field is never cut: it occupies `max W (length of Name)` characters, which is
exactly `W` when the name has at most `W` characters. -/
theorem String_name_field (goos : String) (r : Interface) :
    r.String goos = some (padRight r.Name (nameWidth goos) ++ "  " ++ otherFields r) ∧
    (padRight r.Name (nameWidth goos)).length = max (nameWidth goos) r.Name.length ∧
    (r.Name.length ≤ nameWidth goos →
      (padRight r.Name (nameWidth goos)).length = nameWidth goos) ∧
    (goos = "windows" → nameWidth goos = 35) ∧ (goos ≠ "windows" → nameWidth goos = 10) := by
  refine ⟨Interface_String_eq goos r, padRight_length _ _, fun h => ?_, fun h => ?_, fun h => ?_⟩
  · rw [padRight_length]; omega
  · simp [nameWidth, h]
  · simp [nameWidth, h]

/-- C11 (the claim as stated fails): with the 15-character name
`br-0123456789ab` the line on Linux does not split into a first field of 10
characters, the separator and the other fields; the name field has 15
characters. -/
theorem String_name_field_not_always_10 :
    ¬ ∃ field : String, field.length = 10 ∧
      Interface.String "linux"
          { HardwareAddr := "02:42:ac:11:00:02", IPv4Addr := "172.18.0.1",
            IPv4Mask := "255.255.0.0", IPv4Network := "172.18.0.0/16", IPv6Addr := "",
            MTU := 1500, Name := "br-0123456789ab" } =
        some (field ++ "  " ++ otherFields
          { HardwareAddr := "02:42:ac:11:00:02", IPv4Addr := "172.18.0.1",
            IPv4Mask := "255.255.0.0", IPv4Network := "172.18.0.0/16", IPv6Addr := "",
            MTU := 1500, Name := "br-0123456789ab" }) := by
  rintro ⟨field, hlen, h⟩
  rw [Interface_String_eq] at h
  have hl := congrArg String.length (Option.some.inj h)
  simp only [String.length_append, padRight_length, hlen] at hl
  revert hl
  decide

theorem padRight_empty (w : Nat) : padRight "" w = String.mk (List.replicate w ' ') := by
  simp [padRight, String.length]

theorem padLeft_empty (w : Nat) : padLeft "" w = String.mk (List.replicate w ' ') := by
  simp [padLeft, String.length]

/-- C12: for a record whose values fit their columns, `Interface.String`
returns the name padded on the right to `W`, the IPv4 address and mask padded
on the right to 15, the network padded on the right to 18, the decimal MTU
padded on the left to 4, the hardware address padded on the left to 17 and the
IPv6 address as it is, in this order with two spaces between them, where `W`
is 35 when `GOOS` is `"windows"` and 10 otherwise; the line has
`W + 81 + length IPv6Addr` characters, and an empty field is a column of
spaces. -/
theorem String_columns (goos : String) (r : Interface)
    (hName : r.Name.length ≤ nameWidth goos) (hAddr : r.IPv4Addr.length ≤ 15)
    (hMask : r.IPv4Mask.length ≤ 15) (hNet : r.IPv4Network.length ≤ 18)
    (hMTU : (decimalLiteral r.MTU).length ≤ 4) (hHw : r.HardwareAddr.length ≤ 17) :
    r.String goos =
      some (padRight r.Name (nameWidth goos) ++ "  " ++ padRight r.IPv4Addr 15 ++ "  " ++
        padRight r.IPv4Mask 15 ++ "  " ++ padRight r.IPv4Network 18 ++ "  " ++
        padLeft (decimalLiteral r.MTU) 4 ++ "  " ++ padLeft r.HardwareAddr 17 ++ "  " ++
        r.IPv6Addr) ∧
    (padRight r.Name (nameWidth goos) ++ "  " ++ padRight r.IPv4Addr 15 ++ "  " ++
        padRight r.IPv4Mask 15 ++ "  " ++ padRight r.IPv4Network 18 ++ "  " ++
        padLeft (decimalLiteral r.MTU) 4 ++ "  " ++ padLeft r.HardwareAddr 17 ++ "  " ++
        r.IPv6Addr).length = nameWidth goos + 81 + r.IPv6Addr.length ∧
    (goos = "windows" → nameWidth goos = 35) ∧ (goos ≠ "windows" → nameWidth goos = 10) ∧
    (∀ w, padRight "" w = String.mk (List.replicate w ' ')) ∧
    (∀ w, padLeft "" w = String.mk (List.replicate w ' ')) := by
  refine ⟨?_, ?_, fun h => ?_, fun h => ?_, padRight_empty, padLeft_empty⟩
  · rw [Interface_String_eq]
    simp only [otherFields, String.append_assoc]
  · simp only [String.length_append, padRight_length, padLeft_length, two_spaces_length]
    omega
  · simp [nameWidth, h]
  · simp [nameWidth, h]

theorem String_columns_witness :
    Interface.String "linux"
        { HardwareAddr := "aa:bb:cc:dd:ee:ff", IPv4Addr := "10.0.0.5",
          IPv4Mask := "255.255.255.0", IPv4Network := "10.0.0.0/24", IPv6Addr := "fe80::1/64",
          MTU := 1500, Name := "eth0" } =
      some "eth0        10.0.0.5         255.255.255.0    10.0.0.0/24         1500  aa:bb:cc:dd:ee:ff  fe80::1/64" ∧
    Interface.String "windows"
        { HardwareAddr := "", IPv4Addr := "", IPv4Mask := "", IPv4Network := "",
          IPv6Addr := "fe80::1/64", MTU := 0, Name := "wlan0" } =
      some "wlan0                                                                                         0                     fe80::1/64" :=
  ⟨(String_columns "linux" _ (by decide) (by decide) (by decide) (by decide) (by decide)
      (by decide)).1,
   (String_columns "windows" _ (by decide) (by decide) (by decide) (by decide) (by decide)
      (by decide)).1⟩

end Trawl
